import Mathlib

/-!
Verification of the board core of jacobbaber/terminal-kanban.

Shallow embedding of `src/models.py`, `src/board.py` and the add-command path
of `src/cli.py`.  Python objects become Lean structures, in-place mutation
becomes explicit state passing, `datetime.now().isoformat()` becomes an
explicit `now : String` argument, and string operations act on the character
list (`String.data`), matching Python's code-point semantics (`len`, slicing,
`split`, `strip`, `endswith` all count code points).
-/

set_option maxHeartbeats 1000000

namespace Kanban

/-! ## Python string helpers -/

/-- ASCII whitespace stripped/split by Python `str.strip()` / `str.split()`.
(Python also treats some further Unicode code points as whitespace; none of
the properties below depend on those.) -/
def isPySpace (c : Char) : Bool :=
  c = ' ' || c = '\t' || c = '\n' || c = '\r' || c = '\x0b' || c = '\x0c'

/-- One pass of Python `str.split()` over the characters: `cur` holds the
(reversed) word being accumulated; whitespace runs close words and are
discarded. -/
def splitWsAcc (cur : List Char) : List Char → List String
  | [] => if cur = [] then [] else [String.mk cur.reverse]
  | c :: cs =>
    if isPySpace c then
      if cur = [] then splitWsAcc [] cs
      else String.mk cur.reverse :: splitWsAcc [] cs
    else splitWsAcc (c :: cur) cs

/-- Python `str.split()` with no argument: the maximal whitespace-free runs,
in order (empty parts discarded). -/
def pySplit (s : String) : List String :=
  splitWsAcc [] s.data

/-- Python `str.strip()`: drop leading and trailing whitespace. -/
def pyStrip (s : String) : String :=
  String.mk (((s.data.dropWhile isPySpace).reverse.dropWhile isPySpace).reverse)

/-- Python `s.endswith(t)`. -/
def pyEndsWith (s t : String) : Bool :=
  decide (t.data <:+ s.data)

/-- Python slicing `s[:n]` for `n ≥ 0` (by code points); Python's clamping of
an over-long bound matches `List.take`. -/
def strTake (s : String) (n : Nat) : String :=
  String.mk (s.data.take n)

/-- Python truthiness of an optional string field (`not x`):
`None` and the empty string are falsy. -/
def optFalsy : Option String → Bool
  | none => true
  | some s => s == ""

/-! ## models.py : Task -/

/-- `models.Task`: a single Kanban task record. -/
structure Task where
  id : Int
  title : String
  status : String
  completion_date : Option String
  created_at : Option String
deriving DecidableEq, Repr

/-! ## board.py : constants and the Board state -/

/-- `board.STATUSES`. -/
def STATUSES : List String := ["todo", "in-progress", "done"]

/-- `board.HEADER_TITLES` (lookup by status key). -/
def HEADER_TITLES (s : String) : String :=
  if s = "todo" then "TO DO"
  else if s = "in-progress" then "IN-PROGRESS"
  else if s = "done" then "DONE"
  else ""

/-- `board.MIN_COL_WIDTH`. -/
def MIN_COL_WIDTH : Int := 18

/-- `board.SEP`. -/
def SEP : String := " | "

/-- The Board state: `self.columns` (a dict with exactly the three status
keys, each an ordered list) and `self._next_id`. -/
structure Board where
  todo : List Task
  inProgress : List Task
  done : List Task
  nextId : Int
deriving DecidableEq, Repr

/-- `self.columns[s]`.  Python raises `KeyError` on an unknown key; every
call site guards the key with a membership test or the board invariant, so
`[]` stands in for the unreachable case. -/
def Board.col (b : Board) (s : String) : List Task :=
  if s = "todo" then b.todo
  else if s = "in-progress" then b.inProgress
  else if s = "done" then b.done
  else []

/-- `self.columns[s] = l` (same remark as `Board.col` for unknown keys). -/
def Board.setCol (b : Board) (s : String) (l : List Task) : Board :=
  if s = "todo" then { b with todo := l }
  else if s = "in-progress" then { b with inProgress := l }
  else if s = "done" then { b with done := l }
  else b

/-- `Board.all_tasks`: concatenation in fixed order todo, in-progress, done. -/
def Board.allTasks (b : Board) : List Task :=
  b.todo ++ b.inProgress ++ b.done

/-! ## board.py : task operations -/

/-- `Board.add_task`.  `_allocate_id` is inlined: it returns `_next_id` and
increments the counter.  `now` is `datetime.now().isoformat()`. -/
def Board.add_task (b : Board) (task : Task) (now : String) : Board :=
  let task := { task with id := b.nextId }
  let task := { task with status := "todo" }
  let task := if optFalsy task.created_at then { task with created_at := some now } else task
  { b with todo := b.todo ++ [task], nextId := b.nextId + 1 }

/-- The "already in" outcome text of `_move_found_task`. -/
def alreadyMsg (label new_status : String) : String :=
  s!"{label} already in {new_status}."

/-- The "moved" outcome text of `_move_found_task`. -/
def movedMsg (label new_status : String) : String :=
  s!"{label} moved to \"{new_status}\"."

/-- The in-place mutation of the found task in `_move_found_task`:
`task.status = new_status`, then stamp `completion_date` when newly
entering `done` with no date set. -/
def transitionTask (task : Task) (new_status now : String) : Task :=
  let task := { task with status := new_status }
  if new_status = "done" && optFalsy task.completion_date then
    { task with completion_date := some now }
  else task

/-- `Board._move_found_task`, total model of the non-raising executions.
Python mutates the found task object in place; here the old value is erased
from its column (`list.remove`: first `==` match, i.e. first
dataclass-equal element) and the updated value appended to the target
column.  Returns the outcome message and the new board.  Caveat: when the
task is absent from its status column (or its status is not a column key),
Python raises `ValueError` (resp. `KeyError`) and mutates nothing, while
this total model skips the erase; `Board.moveFoundTask?` models the
exceptions faithfully, and the two agree whenever the task lies in its
(valid) status column (`moveFoundTask?_eq_some`) — in particular on every
state the program itself reaches. -/
def Board.moveFoundTask (b : Board) (task : Task) (new_status label now : String) :
    String × Board :=
  if new_status ∉ STATUSES then (s!"Invalid status: {new_status}", b)
  else if task.status = new_status then (alreadyMsg label new_status, b)
  else
    let b1 := b.setCol task.status ((b.col task.status).erase task)
    let task := transitionTask task new_status now
    let b2 := b1.setCol new_status (b1.col new_status ++ [task])
    (movedMsg label new_status, b2)

/-- `Board.move_task` (move by title, legacy path): first title match in
all_tasks order. -/
def Board.move_task (b : Board) (task_title new_status now : String) : String × Board :=
  match b.allTasks.find? (fun t => t.title == task_title) with
  | some task => b.moveFoundTask task new_status s!"Task \"{task_title}\"" now
  | none => (s!"Task \"{task_title}\" not found.", b)

/-- `Board.move_task_by_index`. -/
def Board.move_task_by_index (b : Board) (current_status : String) (task_number : Int)
    (new_status now : String) : String × Board :=
  if current_status ∉ STATUSES then (s!"Invalid current status: {current_status}", b)
  else if new_status ∉ STATUSES then (s!"Invalid new status: {new_status}", b)
  else
    let idx := task_number - 1
    let tasks_list := b.col current_status
    if idx < 0 ∨ (tasks_list.length : Int) ≤ idx then
      (s!"No task #{task_number} in {current_status}.", b)
    else
      match tasks_list.get? idx.toNat with
      | some task => b.moveFoundTask task new_status s!"Task \"{task.title}\"" now
      | none => (s!"No task #{task_number} in {current_status}.", b)  -- unreachable: guarded

/-- `Board.move_task_by_id`: first id match in all_tasks order. -/
def Board.move_task_by_id (b : Board) (task_id : Int) (new_status now : String) :
    String × Board :=
  if new_status ∉ STATUSES then (s!"Invalid status: {new_status}", b)
  else
    match b.allTasks.find? (fun t => t.id == task_id) with
    | some task => b.moveFoundTask task new_status s!"Task {task_id}" now
    | none => (s!"Task id {task_id} not found.", b)

/-- `Board._move_found_task` with Python's exception semantics explicit:
`self.columns[task.status]` raises `KeyError` when the task's status is not
a column key, and `list.remove` raises `ValueError` when no dataclass-equal
element is in that column; either exception propagates uncaught and mutates
nothing.  `none` models the raising executions; the remaining paths are
those of `Board.moveFoundTask`. -/
def Board.moveFoundTask? (b : Board) (task : Task) (new_status label now : String) :
    Option (String × Board) :=
  if new_status ∉ STATUSES then some (s!"Invalid status: {new_status}", b)
  else if task.status = new_status then some (alreadyMsg label new_status, b)
  else if task.status ∉ STATUSES then none  -- KeyError: self.columns[task.status]
  else if task ∉ b.col task.status then none  -- ValueError: list.remove
  else
    let b1 := b.setCol task.status ((b.col task.status).erase task)
    let task := transitionTask task new_status now
    let b2 := b1.setCol new_status (b1.col new_status ++ [task])
    some (movedMsg label new_status, b2)

/-- `Board.move_task` with the exception of `_move_found_task` propagated
(`none`). -/
def Board.move_task? (b : Board) (task_title new_status now : String) :
    Option (String × Board) :=
  match b.allTasks.find? (fun t => t.title == task_title) with
  | some task => b.moveFoundTask? task new_status s!"Task \"{task_title}\"" now
  | none => some (s!"Task \"{task_title}\" not found.", b)

/-- `Board.move_task_by_index` with the exception propagated. -/
def Board.move_task_by_index? (b : Board) (current_status : String) (task_number : Int)
    (new_status now : String) : Option (String × Board) :=
  if current_status ∉ STATUSES then some (s!"Invalid current status: {current_status}", b)
  else if new_status ∉ STATUSES then some (s!"Invalid new status: {new_status}", b)
  else
    let idx := task_number - 1
    let tasks_list := b.col current_status
    if idx < 0 ∨ (tasks_list.length : Int) ≤ idx then
      some (s!"No task #{task_number} in {current_status}.", b)
    else
      match tasks_list.get? idx.toNat with
      | some task => b.moveFoundTask? task new_status s!"Task \"{task.title}\"" now
      | none => some (s!"No task #{task_number} in {current_status}.", b)  -- unreachable

/-- `Board.move_task_by_id` with the exception propagated. -/
def Board.move_task_by_id? (b : Board) (task_id : Int) (new_status now : String) :
    Option (String × Board) :=
  if new_status ∉ STATUSES then some (s!"Invalid status: {new_status}", b)
  else
    match b.allTasks.find? (fun t => t.id == task_id) with
    | some task => b.moveFoundTask? task new_status s!"Task {task_id}" now
    | none => some (s!"Task id {task_id} not found.", b)

/-- `Board.remove_task`.  Python scans the columns in dict order (todo,
in-progress, done) and calls `list.remove` on the first title match; since
the scan finds the first title match and dataclass equality implies equal
titles, this is erasing the first element with a matching title. -/
def Board.remove_task (b : Board) (task_title : String) : String × Board :=
  if b.todo.any (fun t => t.title == task_title) then
    (s!"Task \"{task_title}\" removed.",
     { b with todo := b.todo.eraseP (fun t => t.title == task_title) })
  else if b.inProgress.any (fun t => t.title == task_title) then
    (s!"Task \"{task_title}\" removed.",
     { b with inProgress := b.inProgress.eraseP (fun t => t.title == task_title) })
  else if b.done.any (fun t => t.title == task_title) then
    (s!"Task \"{task_title}\" removed.",
     { b with done := b.done.eraseP (fun t => t.title == task_title) })
  else (s!"Task \"{task_title}\" not found.", b)

/-- `Board.remove_task_by_id` (same scan, keyed by id). -/
def Board.remove_task_by_id (b : Board) (task_id : Int) : String × Board :=
  if b.todo.any (fun t => t.id == task_id) then
    (s!"Task {task_id} removed.",
     { b with todo := b.todo.eraseP (fun t => t.id == task_id) })
  else if b.inProgress.any (fun t => t.id == task_id) then
    (s!"Task {task_id} removed.",
     { b with inProgress := b.inProgress.eraseP (fun t => t.id == task_id) })
  else if b.done.any (fun t => t.id == task_id) then
    (s!"Task {task_id} removed.",
     { b with done := b.done.eraseP (fun t => t.id == task_id) })
  else (s!"Task id {task_id} not found.", b)

/-! ## board.py : renumber_sequential

Python sorts the (object) list `all_tasks()` stably by
`(t.created_at or '', t.id)` and assigns ids 1.. in sorted order by mutating
the objects.  Here an object is identified by its global position `j` in
all_tasks order; it receives `1 +` its position in the stably sorted list.
A stable insertion sort models Python's stable `list.sort`.  (Any two stable
sorts under the same key agree, so this is extensionally Python's sort.) -/

/-- The sort key `(t.created_at or '', t.id)`: Python `or` sends both `None`
and `''` to `''`. -/
def renumKey (t : Task) : String × Int :=
  (t.created_at.getD "", t.id)

/-- Weak lexicographic order on sort keys, as Python compares tuples of a
string and an int. -/
def keyLe (a b : String × Int) : Bool :=
  decide (a.1 < b.1) || (decide (a.1 = b.1) && decide (a.2 ≤ b.2))

/-- Stable insertion: an element goes before the first strictly-later
element and after any equal key, so earlier list elements keep priority. -/
def insertTagged (x : Nat × Task) : List (Nat × Task) → List (Nat × Task)
  | [] => [x]
  | y :: ys =>
    if keyLe (renumKey x.2) (renumKey y.2) then x :: y :: ys
    else y :: insertTagged x ys

/-- Stable insertion sort of tagged tasks by `renumKey`. -/
def isortTagged : List (Nat × Task) → List (Nat × Task)
  | [] => []
  | x :: xs => insertTagged x (isortTagged xs)

/-- Assign new ids along a list starting at global position `start`:
the task at global position `j` gets `newId j`. -/
def mapWithIds (newId : Nat → Int) : Nat → List Task → List Task
  | _, [] => []
  | start, t :: ts => { t with id := newId start } :: mapWithIds newId (start + 1) ts

/-- `Board.renumber_sequential`. -/
def Board.renumber_sequential (b : Board) : Board :=
  let all := b.allTasks
  let sortedT := isortTagged all.enum
  let ord := sortedT.map Prod.fst
  let newId : Nat → Int := fun j => (List.indexOf j ord : Int) + 1
  { todo := mapWithIds newId 0 b.todo,
    inProgress := mapWithIds newId b.todo.length b.inProgress,
    done := mapWithIds newId (b.todo.length + b.inProgress.length) b.done,
    nextId := (all.length : Int) + 1 }

/-! ## board.py : serialization (get_tasks) and loading (_load_from_dict) -/

/-- One record of the persistence shape, a raw dict entry as consumed by
`_load_from_dict`.  `id = none` models a missing key or a non-`int` value
(the code checks `isinstance(tid, int)`); `title = none` models a missing
title.  The `status` key is written by `get_tasks` but ignored on load. -/
structure TaskRec where
  id : Option Int
  title : Option String
  status : Option String
  completion_date : Option String
  created_at : Option String
deriving DecidableEq, Repr

/-- The record `Board.get_tasks` writes for one task. -/
def taskToRec (t : Task) : TaskRec :=
  { id := some t.id, title := some t.title, status := some t.status,
    completion_date := t.completion_date, created_at := t.created_at }

/-- `Board.get_tasks`: the export record, keys in dict insertion order
todo, in-progress, done, each column in display order. -/
def Board.get_tasks (b : Board) : List (String × List TaskRec) :=
  [("todo", b.todo.map taskToRec),
   ("in-progress", b.inProgress.map taskToRec),
   ("done", b.done.map taskToRec)]

/-- The inner record loop of `_load_from_dict` for one column: skip records
without a title, keep an `int` id or allocate from the running `_next_id`.
Returns the collected tasks and the updated `_next_id`. -/
def collectCol (mapped_status : String) : Int → List TaskRec → List Task × Int
  | nid, [] => ([], nid)
  | nid, raw :: rest =>
    match raw.title with
    | none => collectCol mapped_status nid rest
    | some raw_title =>
      let p : Int × Int :=
        match raw.id with
        | some tid => (tid, nid)
        | none => (nid, nid + 1)
      let task : Task :=
        { id := p.1, title := raw_title, status := mapped_status,
          completion_date := raw.completion_date, created_at := raw.created_at }
      let r := collectCol mapped_status p.2 rest
      (task :: r.1, r.2)

/-- The outer loop of `_load_from_dict`: legacy `doing` maps to
`in-progress`; unknown keys are skipped. -/
def collectRecs : Int → List (String × List TaskRec) → List Task × Int
  | nid, [] => ([], nid)
  | nid, (status, recs) :: rest =>
    let mapped := if status = "doing" then "in-progress" else status
    if mapped ∉ STATUSES then collectRecs nid rest
    else
      let r := collectCol mapped nid recs
      let r' := collectRecs r.2 rest
      (r.1 ++ r'.1, r'.2)

/-- `max(t.id for t in collected)` for a nonempty list (0 is a junk value
for `[]`, where Python would raise and the code never calls it). -/
def maxIdList : List Task → Int
  | [] => 0
  | t :: ts => ts.foldl (fun m u => max m u.id) t.id

/-- The final append loop of `_load_from_dict`:
`self.columns[task.status].append(task)` for each collected task. -/
def distribute (b : Board) : List Task → Board
  | [] => b
  | t :: ts => distribute (b.setCol t.status (b.col t.status ++ [t])) ts

/-- `Board.__init__(tasks_dict)`: fresh board (empty columns, `_next_id = 1`)
then `_load_from_dict`. -/
def boardOfDict (d : List (String × List TaskRec)) : Board :=
  let c := collectRecs 1 d
  let nid := if c.1 ≠ [] then maxIdList c.1 + 1 else c.2
  distribute { todo := [], inProgress := [], done := [], nextId := nid } c.1

/-- `load(export(board))`: rebuild a board from its own export. -/
def roundtrip (b : Board) : Board :=
  boardOfDict b.get_tasks

/-! ## board.py : display geometry

`theme.color` under the disabled configuration (e.g. `NO_COLOR`) is the
identity.  When color is enabled it only wraps text in ANSI SGR codes, which
are exactly what `board.ANSI_RE` strips again, so the strings built below
are the undecorated (ANSI-stripped) contents of the display lines; all of
the wrapping and width arithmetic in the source operates on these
undecorated strings (decoration is applied after all wrap decisions). -/

/-- `theme.color` with color disabled: the identity on the text (the style
tokens, which the identity ignores, are omitted). -/
def color (text : String) : String := text

/-- `completion_date.split('T')[0]`: the part before the first `T`. -/
def dayOf (s : String) : String :=
  String.mk (s.data.takeWhile (fun c => c ≠ 'T'))

/-- The undecorated parts of `Board._task_segments` (the `status_col` style
token is dropped: the identity `color` ignores it). -/
structure Segments where
  pv : String
  pc : String
  title_text : String
  done_suffix : String
  done_suffix_colored : String
deriving DecidableEq, Repr

/-- `Board._task_segments`.  The f-strings `f"{task.id}. "`, `f"{task.id}."`
and `f" (✓ {day})"` are written as explicit concatenations of `str(id)` /
`day` with their literal parts. -/
def task_segments (task : Task) : Segments :=
  let pv := toString task.id ++ ". "
  let pc := color (toString task.id ++ ".") ++ " "
  let title_text := if task.title ≠ "" then task.title else "<untitled>"
  if task.status = "done" && !(optFalsy task.completion_date) then
    let day := dayOf (task.completion_date.getD "")
    let ds := " (✓ " ++ day ++ ")"
    { pv := pv, pc := pc, title_text := title_text,
      done_suffix := ds, done_suffix_colored := color ds }
  else
    { pv := pv, pc := pc, title_text := title_text,
      done_suffix := "", done_suffix_colored := "" }

/-! ### Column width allocation (`Board._compute_column_widths`) -/

/-- The widths dict (keys todo, in-progress, done). -/
structure Widths where
  todo : Int
  inProgress : Int
  done : Int
deriving DecidableEq, Repr

/-- `widths[s]` (0 is a junk value for unknown keys, never used). -/
def Widths.get (w : Widths) (s : String) : Int :=
  if s = "todo" then w.todo
  else if s = "in-progress" then w.inProgress
  else if s = "done" then w.done
  else 0

/-- `widths[s] = v`. -/
def Widths.set (w : Widths) (s : String) (v : Int) : Widths :=
  if s = "todo" then { w with todo := v }
  else if s = "in-progress" then { w with inProgress := v }
  else if s = "done" then { w with done := v }
  else w

/-- `sum(widths.values())` (dict value order todo, in-progress, done). -/
def Widths.sum (w : Widths) : Int :=
  w.todo + w.inProgress + w.done

/-- `max(STATUSES, key=lambda s: widths[s])`: Python `max` keeps the first
element attaining the maximum. -/
def widest (w : Widths) : String :=
  if w.todo ≥ w.inProgress ∧ w.todo ≥ w.done then "todo"
  else if w.inProgress ≥ w.done then "in-progress"
  else "done"

lemma sum_set_widest_sub_one (w : Widths) :
    (w.set (widest w) (w.get (widest w) - 1)).sum = w.sum - 1 := by
  unfold widest Widths.set Widths.get Widths.sum
  split_ifs <;> simp_all <;> ring

/-- The shrink loop: repeatedly decrement the currently-widest column until
the total fits in `target_space` or the widest is at the minimum floor. -/
def shrinkLoop (w : Widths) (target_space : Int) : Widths :=
  if w.sum > target_space then
    if w.get (widest w) ≤ MIN_COL_WIDTH then w
    else shrinkLoop (w.set (widest w) (w.get (widest w) - 1)) target_space
  else w
termination_by (w.sum - target_space).toNat
decreasing_by
  simp only [sum_set_widest_sub_one]
  omega

/-- `STATUSES[i % len(STATUSES)]`. -/
def statusAtMod (i : Nat) : String :=
  if i % 3 = 0 then "todo" else if i % 3 = 1 then "in-progress" else "done"

/-- The surplus distribution loop: round-robin, one column at a time. -/
def growLoop : Widths → Nat → Nat → Widths
  | w, 0, _ => w
  | w, e + 1, i => growLoop (w.set (statusAtMod i) (w.get (statusAtMod i) + 1)) e (i + 1)

/-- The `candidate` length in `_compute_column_widths`:
`len(pv) + len(title_text) + len(done_suffix)`. -/
def candLen (t : Task) : Int :=
  let seg := task_segments t
  (seg.pv.length : Int) + (seg.title_text.length : Int) + (seg.done_suffix.length : Int)

/-- The `longest` accumulation for one column: start from the header length,
take any strictly larger candidate. -/
def colLongest (header : String) (tasks : List Task) : Int :=
  tasks.foldl (fun longest t => if candLen t > longest then candLen t else longest)
    (header.length : Int)

/-- The `desired` dict of `_compute_column_widths`:
`desired[s] = max(MIN_COL_WIDTH, longest)` per column. -/
def desiredW (b : Board) : Widths :=
  { todo := max MIN_COL_WIDTH (colLongest (HEADER_TITLES "todo") b.todo),
    inProgress := max MIN_COL_WIDTH (colLongest (HEADER_TITLES "in-progress") b.inProgress),
    done := max MIN_COL_WIDTH (colLongest (HEADER_TITLES "done") b.done) }

/-- `Board._compute_column_widths`.  `term_width` is an `Int` so that zero
and negative environment values are covered. -/
def Board.compute_column_widths (b : Board) (term_width : Int) : Widths :=
  let sep_total : Int := (SEP.length : Int) * ((STATUSES.length : Int) - 1)
  let widths : Widths := desiredW b
  let total := widths.sum + sep_total
  if total > term_width then
    let target_space := max (term_width - sep_total) ((STATUSES.length : Int) * MIN_COL_WIDTH)
    shrinkLoop widths target_space
  else
    let extra := term_width - (widths.sum + sep_total)
    growLoop widths extra.toNat 0

/-! ### Text wrapping (`Board._wrap_task`) -/

/-- The word-accumulation loop of `_wrap_task`.  State: the accumulated
`lines_raw`, the `current` line and the `first` flag. -/
def wrapLoop (limit_first limit_other : Int) :
    List String → List String → String → Bool → List String × String
  | [], lines_raw, current, _ => (lines_raw, current)
  | w :: ws, lines_raw, current, first =>
    let limit := if first then limit_first else limit_other
    let candidate := if current = "" then w else current ++ " " ++ w
    if (candidate.length : Int) ≤ limit then
      wrapLoop limit_first limit_other ws lines_raw candidate first
    else
      let lines_raw' := if current ≠ "" then lines_raw ++ [current] else lines_raw
      wrapLoop limit_first limit_other ws lines_raw' w false

/-- The blank indent of a continuation line: `' ' * prefix_space`. -/
def indentOf (n : Nat) : String :=
  String.mk (List.replicate n ' ')

/-- The per-line decoration step of `_wrap_task` (the body of the
`for idx, raw_line in enumerate(lines_raw)` loop): id prefix on the first
line, blank indent on continuation lines; an attached or standalone
done-suffix is re-rendered from `done_suffix_colored` (note that the
standalone case emits the unstripped suffix, leading space included). -/
def assembleLine (seg : Segments) (prefix_space : Nat) (q : Nat × String) : String :=
  let idx := q.1
  let raw_line := q.2
  let head := if idx = 0 then seg.pc else indentOf prefix_space
  if seg.done_suffix ≠ "" ∧ pyEndsWith raw_line seg.done_suffix = true ∧
      raw_line ≠ pyStrip seg.done_suffix then
    let base_part := strTake raw_line (raw_line.length - seg.done_suffix.length)
    head ++ color base_part ++ seg.done_suffix_colored
  else if seg.done_suffix ≠ "" ∧ raw_line = pyStrip seg.done_suffix then
    head ++ seg.done_suffix_colored
  else
    head ++ color raw_line

/-- `Board._wrap_task`.  Returns `none` for the one crashing input class:
when the title has no words (whitespace-only title) and the done-suffix fits
the limit, Python executes `lines_raw[-1] = ...` on an empty list and raises
`IndexError`.  Otherwise `some` of the produced display lines (undecorated,
see `color`). -/
def Board.wrap_task (task : Task) (col_width : Int) : Option (List String) :=
  let seg := task_segments task
  let words := pySplit seg.title_text
  let prefix_space := seg.pv.length
  let limit_first : Int := max 1 (col_width - (prefix_space : Int))
  let limit_other : Int := max 1 (col_width - (prefix_space : Int))
  let r := wrapLoop limit_first limit_other words [] "" true
  let lines_raw := if r.2 ≠ "" then r.1 ++ [r.2] else r.1
  let lines_raw? : Option (List String) :=
    if seg.done_suffix ≠ "" then
      let last := (lines_raw.getLast?).getD ""
      let limit := if lines_raw.length = 1 then limit_first else limit_other
      if (last.length : Int) + (seg.done_suffix.length : Int) ≤ limit then
        if lines_raw = [] then none  -- lines_raw[-1] assignment: IndexError
        else some (lines_raw.dropLast ++ [last ++ seg.done_suffix])
      else some (lines_raw ++ [pyStrip seg.done_suffix])
    else some lines_raw
  lines_raw?.map (fun lines_raw =>
    let colored := lines_raw.enum.map (assembleLine seg prefix_space)
    if colored ≠ [] then colored else [seg.pc ++ color "<empty>"])

/-! ## Width allocator lemmas -/

lemma get_widest_ge (w : Widths) :
    w.todo ≤ w.get (widest w) ∧ w.inProgress ≤ w.get (widest w) ∧
    w.done ≤ w.get (widest w) := by
  unfold widest Widths.get
  split_ifs <;> simp_all <;> omega

lemma set_widest_dec_bounds (w : Widths) (h : ¬ w.get (widest w) ≤ MIN_COL_WIDTH)
    (h1 : MIN_COL_WIDTH ≤ w.todo) (h2 : MIN_COL_WIDTH ≤ w.inProgress)
    (h3 : MIN_COL_WIDTH ≤ w.done) :
    MIN_COL_WIDTH ≤ (w.set (widest w) (w.get (widest w) - 1)).todo ∧
    MIN_COL_WIDTH ≤ (w.set (widest w) (w.get (widest w) - 1)).inProgress ∧
    MIN_COL_WIDTH ≤ (w.set (widest w) (w.get (widest w) - 1)).done := by
  unfold widest Widths.set Widths.get at *
  split_ifs at * <;> simp_all <;> omega

lemma shrinkLoop_spec : ∀ (n : Nat) (w : Widths) (target : Int),
    (w.sum - target).toNat = n →
    MIN_COL_WIDTH ≤ w.todo → MIN_COL_WIDTH ≤ w.inProgress → MIN_COL_WIDTH ≤ w.done →
    (MIN_COL_WIDTH ≤ (shrinkLoop w target).todo ∧
     MIN_COL_WIDTH ≤ (shrinkLoop w target).inProgress ∧
     MIN_COL_WIDTH ≤ (shrinkLoop w target).done) ∧
    ((shrinkLoop w target).sum ≤ target ∨
     ((shrinkLoop w target).todo = MIN_COL_WIDTH ∧
      (shrinkLoop w target).inProgress = MIN_COL_WIDTH ∧
      (shrinkLoop w target).done = MIN_COL_WIDTH)) := by
  intro n
  induction n using Nat.strong_induction_on with
  | _ n ih =>
    intro w target hn h1 h2 h3
    rw [shrinkLoop]
    split_ifs with hsum hmin
    · -- widest already at the floor: everything is at the floor
      have hge := get_widest_ge w
      exact ⟨⟨h1, h2, h3⟩, Or.inr ⟨by omega, by omega, by omega⟩⟩
    · -- decrement the widest and recurse
      have hb := set_widest_dec_bounds w hmin h1 h2 h3
      have hdec := sum_set_widest_sub_one w
      exact ih ((w.set (widest w) (w.get (widest w) - 1)).sum - target).toNat
        (by omega) _ _ rfl hb.1 hb.2.1 hb.2.2
    · -- total already fits
      exact ⟨⟨h1, h2, h3⟩, Or.inl (by omega)⟩

lemma sum_set_statusAtMod_add_one (w : Widths) (i : Nat) :
    (w.set (statusAtMod i) (w.get (statusAtMod i) + 1)).sum = w.sum + 1 := by
  unfold statusAtMod Widths.set Widths.get Widths.sum
  split_ifs <;> simp_all <;> ring

lemma set_statusAtMod_bounds (w : Widths) (i : Nat) (m : Int)
    (h1 : m ≤ w.todo) (h2 : m ≤ w.inProgress) (h3 : m ≤ w.done) :
    m ≤ (w.set (statusAtMod i) (w.get (statusAtMod i) + 1)).todo ∧
    m ≤ (w.set (statusAtMod i) (w.get (statusAtMod i) + 1)).inProgress ∧
    m ≤ (w.set (statusAtMod i) (w.get (statusAtMod i) + 1)).done := by
  unfold statusAtMod Widths.set Widths.get
  split_ifs <;> simp_all <;> omega

lemma growLoop_sum : ∀ (e i : Nat) (w : Widths), (growLoop w e i).sum = w.sum + e := by
  intro e
  induction e with
  | zero => intro i w; simp [growLoop]
  | succ e ih =>
    intro i w
    rw [growLoop, ih, sum_set_statusAtMod_add_one]
    push_cast
    ring

lemma growLoop_bounds : ∀ (e i : Nat) (w : Widths) (m : Int),
    m ≤ w.todo → m ≤ w.inProgress → m ≤ w.done →
    m ≤ (growLoop w e i).todo ∧ m ≤ (growLoop w e i).inProgress ∧
    m ≤ (growLoop w e i).done := by
  intro e
  induction e with
  | zero => intro i w m h1 h2 h3; simpa [growLoop] using ⟨h1, h2, h3⟩
  | succ e ih =>
    intro i w m h1 h2 h3
    rw [growLoop]
    have hb := set_statusAtMod_bounds w i m h1 h2 h3
    exact ih _ _ m hb.1 hb.2.1 hb.2.2

lemma sep_overhead_eq : ((SEP.length : Int) * ((STATUSES.length : Int) - 1)) = 6 := by
  decide

lemma floor_total_eq : ((STATUSES.length : Int) * MIN_COL_WIDTH) = 54 := by
  decide

lemma desiredW_bounds (b : Board) :
    MIN_COL_WIDTH ≤ (desiredW b).todo ∧ MIN_COL_WIDTH ≤ (desiredW b).inProgress ∧
    MIN_COL_WIDTH ≤ (desiredW b).done :=
  ⟨le_max_left _ _, le_max_left _ _, le_max_left _ _⟩

/-- C2: for every terminal width and every board content, the three
allocated column widths sum plus the fixed separator overhead (two
3-character separators, 6 in total) does not exceed the terminal width,
unless all three output widths are already at the minimum floor 18. -/
theorem C2_widths_fit_or_all_at_floor (b : Board) (term_width : Int) :
    (b.compute_column_widths term_width).sum + 6 ≤ term_width ∨
    ((b.compute_column_widths term_width).todo = 18 ∧
     (b.compute_column_widths term_width).inProgress = 18 ∧
     (b.compute_column_widths term_width).done = 18) := by
  obtain ⟨hb1, hb2, hb3⟩ := desiredW_bounds b
  simp only [Board.compute_column_widths]
  rw [sep_overhead_eq, floor_total_eq]
  split_ifs with h
  · obtain ⟨⟨g1, g2, g3⟩, hd⟩ :=
      shrinkLoop_spec _ (desiredW b) (max (term_width - 6) 54) rfl hb1 hb2 hb3
    have hsum : (shrinkLoop (desiredW b) (max (term_width - 6) 54)).sum =
        (shrinkLoop (desiredW b) (max (term_width - 6) 54)).todo +
        (shrinkLoop (desiredW b) (max (term_width - 6) 54)).inProgress +
        (shrinkLoop (desiredW b) (max (term_width - 6) 54)).done := rfl
    have hMIN : MIN_COL_WIDTH = 18 := rfl
    rw [hMIN] at g1 g2 g3 hd
    omega
  · left
    rw [growLoop_sum]
    have hsum : (desiredW b).sum =
        (desiredW b).todo + (desiredW b).inProgress + (desiredW b).done := rfl
    omega

/-- C10: for every terminal width — including zero and negative values —
and every board content, each of the three allocated column widths is at
least the minimum floor 18. -/
theorem C10_widths_at_least_floor (b : Board) (term_width : Int) :
    18 ≤ (b.compute_column_widths term_width).todo ∧
    18 ≤ (b.compute_column_widths term_width).inProgress ∧
    18 ≤ (b.compute_column_widths term_width).done := by
  obtain ⟨hb1, hb2, hb3⟩ := desiredW_bounds b
  simp only [Board.compute_column_widths]
  split_ifs with h
  · exact (shrinkLoop_spec _ (desiredW b) _ rfl hb1 hb2 hb3).1
  · exact growLoop_bounds _ _ _ 18 hb1 hb2 hb3

/-! ## Column access lemmas -/

lemma mem_STATUSES_iff {s : String} :
    s ∈ STATUSES ↔ s = "todo" ∨ s = "in-progress" ∨ s = "done" := by
  simp [STATUSES]

lemma col_setCol_self (b : Board) (l : List Task) {s : String} (hs : s ∈ STATUSES) :
    (b.setCol s l).col s = l := by
  rcases mem_STATUSES_iff.1 hs with h | h | h <;> subst h <;>
    simp [Board.setCol, Board.col]

lemma col_setCol_ne (b : Board) (l : List Task) {s s' : String} (h : s ≠ s') :
    (b.setCol s l).col s' = b.col s' := by
  unfold Board.setCol Board.col
  split_ifs <;> simp_all

lemma setCol_done_of_ne (b : Board) (l : List Task) {s : String} (h : s ≠ "done") :
    (b.setCol s l).done = b.done := by
  unfold Board.setCol
  split_ifs <;> simp_all

lemma setCol_nextId (b : Board) (s : String) (l : List Task) :
    (b.setCol s l).nextId = b.nextId := by
  unfold Board.setCol
  split_ifs <;> rfl

/-! ## C6: completion-date stamping -/

/-- C6: in the shared transition routine `_move_found_task`, the first
transition into `done` with no (or empty) existing completion date stamps
`completion_date := now`; a transition into `done` with a date already set
leaves it unchanged; a transition out of `done` leaves it unchanged (the
task lands appended to the target column). -/
theorem C6_completion_date_stamping (b : Board) (t : Task) (label now : String) :
    (t.status ≠ "done" → optFalsy t.completion_date = true →
      (b.moveFoundTask t "done" label now).2.done.getLast? =
        some { t with status := "done", completion_date := some now }) ∧
    (t.status ≠ "done" → optFalsy t.completion_date = false →
      (b.moveFoundTask t "done" label now).2.done.getLast? =
        some { t with status := "done" }) ∧
    (∀ ns ∈ STATUSES, t.status = "done" → ns ≠ "done" →
      ((b.moveFoundTask t ns label now).2.col ns).getLast? =
        some { t with status := ns }) := by
  refine ⟨?_, ?_, ?_⟩
  · intro hst hfal
    simp only [Board.moveFoundTask]
    rw [if_neg (by simp [STATUSES]), if_neg hst]
    simp [hfal, transitionTask, Board.setCol, List.getLast?_concat]
  · intro hst hfal
    simp only [Board.moveFoundTask]
    rw [if_neg (by simp [STATUSES]), if_neg hst]
    simp [hfal, transitionTask, Board.setCol, List.getLast?_concat]
  · intro ns hns hdone hne
    simp only [Board.moveFoundTask]
    rw [if_neg (by simp [hns]), if_neg (by rw [hdone]; exact fun h => hne h.symm)]
    have hd : decide (ns = "done") = false := by simp [hne]
    simp only [transitionTask, hd, Bool.false_and, if_neg Bool.false_ne_true]
    rw [col_setCol_self _ _ hns]
    simp [List.getLast?_concat]

/-- Witness for C6: a first move into `done` stamps the date, a move into
`done` with a date set keeps it, and a move out of `done` keeps it. -/
theorem C6_witness :
    ((({ todo := [⟨1, "a", "todo", none, none⟩], inProgress := [], done := [], nextId := 2 } :
        Board).moveFoundTask ⟨1, "a", "todo", none, none⟩ "done" "L" "T1").2.done.getLast? =
      some ⟨1, "a", "done", some "T1", none⟩) ∧
    ((({ todo := [⟨1, "a", "todo", some "D", none⟩], inProgress := [], done := [], nextId := 2 } :
        Board).moveFoundTask ⟨1, "a", "todo", some "D", none⟩ "done" "L" "T1").2.done.getLast? =
      some ⟨1, "a", "done", some "D", none⟩) ∧
    (((({ todo := [], inProgress := [], done := [⟨1, "a", "done", some "D", none⟩], nextId := 2 } :
        Board).moveFoundTask ⟨1, "a", "done", some "D", none⟩ "in-progress" "L" "T2").2.col
          "in-progress").getLast? = some ⟨1, "a", "in-progress", some "D", none⟩) :=
  ⟨(C6_completion_date_stamping _ ⟨1, "a", "todo", none, none⟩ "L" "T1").1
      (by decide) (by decide),
   (C6_completion_date_stamping _ ⟨1, "a", "todo", some "D", none⟩ "L" "T1").2.1
      (by decide) (by decide),
   (C6_completion_date_stamping _ ⟨1, "a", "done", some "D", none⟩ "L" "T2").2.2
      "in-progress" (by decide) (by decide) (by decide)⟩

/-! ## C7: moving to the current status is a no-op -/

/-- C7: for each of the three move variants, when the located task's current
status equals the (valid) target status, the operation returns the
distinguishable "already in" outcome and leaves the entire board state
unchanged. -/
theorem C7_move_to_current_status_noop (b : Board) (now : String) :
    (∀ ttl ns t, b.allTasks.find? (fun u => u.title == ttl) = some t →
      ns ∈ STATUSES → t.status = ns →
      b.move_task ttl ns now = (alreadyMsg s!"Task \"{ttl}\"" ns, b)) ∧
    (∀ tid ns t, ns ∈ STATUSES → b.allTasks.find? (fun u => u.id == tid) = some t →
      t.status = ns →
      b.move_task_by_id tid ns now = (alreadyMsg s!"Task {tid}" ns, b)) ∧
    (∀ cur k ns t, cur ∈ STATUSES → ns ∈ STATUSES → 1 ≤ k →
      (b.col cur).get? (k - 1).toNat = some t → t.status = ns →
      b.move_task_by_index cur k ns now = (alreadyMsg s!"Task \"{t.title}\"" ns, b)) := by
  refine ⟨?_, ?_, ?_⟩
  · intro ttl ns t hfind hns hst
    simp only [Board.move_task, hfind]
    simp only [Board.moveFoundTask]
    rw [if_neg (by simp [hns]), if_pos hst]
  · intro tid ns t hns hfind hst
    simp only [Board.move_task_by_id]
    rw [if_neg (by simp [hns])]
    simp only [hfind]
    simp only [Board.moveFoundTask]
    rw [if_neg (by simp [hns]), if_pos hst]
  · intro cur k ns t hcur hns hk hget hst
    have hlt : (k - 1).toNat < (b.col cur).length := List.get?_eq_some.1 hget |>.1
    simp only [Board.move_task_by_index]
    rw [if_neg (by simp [hcur]), if_neg (by simp [hns]),
        if_neg (by push_neg; omega)]
    simp only [hget]
    simp only [Board.moveFoundTask]
    rw [if_neg (by simp [hns]), if_pos hst]

/-- Witness for C7: a one-task board, all three variants, target equal to
the current status `todo`. -/
theorem C7_witness :
    (({ todo := [⟨1, "a", "todo", none, none⟩], inProgress := [], done := [], nextId := 2 } :
        Board).move_task "a" "todo" "T" =
      (alreadyMsg "Task \"a\"" "todo",
       { todo := [⟨1, "a", "todo", none, none⟩], inProgress := [], done := [], nextId := 2 })) ∧
    (({ todo := [⟨1, "a", "todo", none, none⟩], inProgress := [], done := [], nextId := 2 } :
        Board).move_task_by_id 1 "todo" "T" =
      (alreadyMsg "Task 1" "todo",
       { todo := [⟨1, "a", "todo", none, none⟩], inProgress := [], done := [], nextId := 2 })) ∧
    (({ todo := [⟨1, "a", "todo", none, none⟩], inProgress := [], done := [], nextId := 2 } :
        Board).move_task_by_index "todo" 1 "todo" "T" =
      (alreadyMsg "Task \"a\"" "todo",
       { todo := [⟨1, "a", "todo", none, none⟩], inProgress := [], done := [], nextId := 2 })) := by
  have h := C7_move_to_current_status_noop
    ({ todo := [⟨1, "a", "todo", none, none⟩], inProgress := [], done := [], nextId := 2 } : Board) "T"
  refine ⟨?_, ?_, ?_⟩
  · have := h.1 "a" "todo" ⟨1, "a", "todo", none, none⟩ (by decide) (by decide) (by decide)
    simpa using this
  · have := h.2.1 1 "todo" ⟨1, "a", "todo", none, none⟩ (by decide) (by decide) (by decide)
    simpa using this
  · have := h.2.2 "todo" 1 "todo" ⟨1, "a", "todo", none, none⟩ (by decide) (by decide)
      (by decide) (by decide) (by decide)
    simpa using this

/-! ## C8: the add flow -/

/-- The add-command flow of `cli.CLI` (`_cmd_add` inline form and the
interactive `_add` prompt behave identically): strip the title, reject a
blank one with the "Title required." error and no board change, otherwise
`Board.add_task` on `Task(id=0, title=title)` (dataclass defaults: status
`todo`, no timestamps).  Returns the printed error (if any) and the
board. -/
def addFlow (b : Board) (raw_title now : String) : Option String × Board :=
  let title := pyStrip raw_title
  if title = "" then (some "Title required.", b)
  else (none, b.add_task { id := 0, title := title, status := "todo",
                           completion_date := none, created_at := none } now)

/-- C8: a blank title is rejected with a user-facing error and the board is
unchanged; a non-blank title is added with a fresh id (`_next_id`), status
`todo`, `created_at` stamped, appended at the end of the todo column; and
`add_task` itself stamps `created_at` only when it is absent (or empty). -/
theorem C8_add_task_blank_rejected_fresh_id (b : Board) (raw_title now : String) :
    (pyStrip raw_title = "" → addFlow b raw_title now = (some "Title required.", b)) ∧
    (pyStrip raw_title ≠ "" → addFlow b raw_title now =
      (none, { b with
        todo := b.todo ++ [{ id := b.nextId, title := pyStrip raw_title, status := "todo",
                             completion_date := none, created_at := some now }],
        nextId := b.nextId + 1 })) ∧
    (∀ task : Task, optFalsy task.created_at = false →
      b.add_task task now =
        { b with todo := b.todo ++ [{ task with id := b.nextId, status := "todo" }],
                 nextId := b.nextId + 1 }) := by
  refine ⟨?_, ?_, ?_⟩
  · intro hb
    simp [addFlow, hb]
  · intro hb
    simp [addFlow, hb, Board.add_task, optFalsy]
  · intro task hfal
    simp [Board.add_task, hfal]

/-- Witness for C8: blank title `"  "` rejected; title `" hi "` stripped and
appended with the fresh id; a task with `created_at` present keeps it. -/
theorem C8_witness :
    (addFlow { todo := [], inProgress := [], done := [], nextId := 5 } "  " "T" =
      (some "Title required.", { todo := [], inProgress := [], done := [], nextId := 5 })) ∧
    (addFlow { todo := [], inProgress := [], done := [], nextId := 5 } " hi " "T" =
      (none, { todo := [⟨5, "hi", "todo", none, some "T"⟩], inProgress := [], done := [],
               nextId := 6 })) ∧
    (({ todo := [], inProgress := [], done := [], nextId := 5 } : Board).add_task
        ⟨0, "x", "todo", none, some "C"⟩ "T" =
      { todo := [⟨5, "x", "todo", none, some "C"⟩], inProgress := [], done := [], nextId := 6 }) := by
  have h1 := (C8_add_task_blank_rejected_fresh_id
    { todo := [], inProgress := [], done := [], nextId := 5 } "  " "T").1 (by decide)
  have h2 := (C8_add_task_blank_rejected_fresh_id
    { todo := [], inProgress := [], done := [], nextId := 5 } " hi " "T").2.1 (by decide)
  have h3 := (C8_add_task_blank_rejected_fresh_id
    { todo := [], inProgress := [], done := [], nextId := 5 } "ignored" "T").2.2
    ⟨0, "x", "todo", none, some "C"⟩ (by decide)
  refine ⟨h1, ?_, ?_⟩
  · rw [h2]; decide
  · rw [h3]; decide

/-! ## C9: the three move variants agree on the resulting board -/

lemma moveFoundTask_snd_label (b : Board) (t : Task) (ns now l l' : String) :
    (b.moveFoundTask t ns l now).2 = (b.moveFoundTask t ns l' now).2 := by
  unfold Board.moveFoundTask
  split_ifs <;> rfl

/-- C9: when move-by-title, move-by-id and move-by-index (valid status,
1-based position) locate the same task and are given the same valid target
status, the three variants produce identical post-states: all three funnel
into `_move_found_task`, whose board effect does not depend on the label. -/
theorem C9_move_variants_agree (b : Board) (t : Task) (ttl : String) (tid : Int)
    (cur : String) (k : Int) (ns now : String)
    (h1 : b.allTasks.find? (fun u => u.title == ttl) = some t)
    (h2 : b.allTasks.find? (fun u => u.id == tid) = some t)
    (h3 : cur ∈ STATUSES) (h4 : 1 ≤ k)
    (h5 : (b.col cur).get? (k - 1).toNat = some t)
    (h6 : ns ∈ STATUSES) :
    (b.move_task ttl ns now).2 = (b.move_task_by_id tid ns now).2 ∧
    (b.move_task_by_id tid ns now).2 = (b.move_task_by_index cur k ns now).2 := by
  have hlt : (k - 1).toNat < (b.col cur).length := List.get?_eq_some.1 h5 |>.1
  have e1 : (b.move_task ttl ns now).2 =
      (b.moveFoundTask t ns s!"Task \"{ttl}\"" now).2 := by
    simp only [Board.move_task, h1]
  have e2 : (b.move_task_by_id tid ns now).2 =
      (b.moveFoundTask t ns s!"Task {tid}" now).2 := by
    simp only [Board.move_task_by_id]
    rw [if_neg (by simp [h6])]
    simp only [h2]
  have e3 : (b.move_task_by_index cur k ns now).2 =
      (b.moveFoundTask t ns s!"Task \"{t.title}\"" now).2 := by
    simp only [Board.move_task_by_index]
    rw [if_neg (by simp [h3]), if_neg (by simp [h6]), if_neg (by push_neg; omega)]
    simp only [h5]
  rw [e1, e2, e3]
  exact ⟨moveFoundTask_snd_label .., moveFoundTask_snd_label ..⟩

/-- Witness for C9: one-task board, the task found by title, id and index,
moved to `done` by all three variants. -/
theorem C9_witness :
    ((({ todo := [⟨1, "a", "todo", none, none⟩], inProgress := [], done := [], nextId := 2 } :
        Board).move_task "a" "done" "T").2 =
      (({ todo := [⟨1, "a", "todo", none, none⟩], inProgress := [], done := [], nextId := 2 } :
        Board).move_task_by_id 1 "done" "T").2) ∧
    ((({ todo := [⟨1, "a", "todo", none, none⟩], inProgress := [], done := [], nextId := 2 } :
        Board).move_task_by_id 1 "done" "T").2 =
      (({ todo := [⟨1, "a", "todo", none, none⟩], inProgress := [], done := [], nextId := 2 } :
        Board).move_task_by_index "todo" 1 "done" "T").2) :=
  C9_move_variants_agree
    { todo := [⟨1, "a", "todo", none, none⟩], inProgress := [], done := [], nextId := 2 }
    ⟨1, "a", "todo", none, none⟩ "a" 1 "todo" 1 "done" "T"
    (by decide) (by decide) (by decide) (by decide) (by decide) (by decide)

/-! ## C3: id uniqueness under operation sequences -/

/-- The two hypotheses listed by the claim: ids pairwise unique and
`_next_id` greater than every id present. -/
def UniqIds (b : Board) : Prop :=
  (b.allTasks.map Task.id).Nodup ∧ ∀ t ∈ b.allTasks, t.id < b.nextId

instance (b : Board) : Decidable (UniqIds b) := by
  unfold UniqIds; infer_instance

/-- An operation sequence over the mutation API of the board (the `now`
timestamps are carried explicitly). -/
inductive Op where
  | add (task : Task) (now : String)
  | mvTitle (title new_status now : String)
  | mvId (id : Int) (new_status now : String)
  | mvIndex (cur : String) (k : Int) (new_status now : String)
  | rmTitle (title : String)
  | rmId (id : Int)

/-- The board after a command that may raise: an uncaught `KeyError` or
`ValueError` (`none`) aborts the command before any mutation, so the board
stays the previous one. -/
def orUnchanged (b : Board) : Option (String × Board) → Board
  | none => b
  | some r => r.2

/-- Run one operation, discarding the outcome message.  The move variants
run under the faithful exception semantics (`Board.move_task?` etc.): a
raising move leaves the board unchanged.  `add_task`, `remove_task` and
`remove_task_by_id` raise nothing. -/
def applyOp (b : Board) : Op → Board
  | .add t now => b.add_task t now
  | .mvTitle ttl ns now => orUnchanged b (b.move_task? ttl ns now)
  | .mvId i ns now => orUnchanged b (b.move_task_by_id? i ns now)
  | .mvIndex c k ns now => orUnchanged b (b.move_task_by_index? c k ns now)
  | .rmTitle ttl => (b.remove_task ttl).2
  | .rmId i => (b.remove_task_by_id i).2

/-- Run a sequence of operations. -/
def applyOps (b : Board) (ops : List Op) : Board :=
  ops.foldl applyOp b

/-! ### Permutation bookkeeping for a move -/

lemma perm_app3_first (l₁ l₂ l₃ : List Task) (x : Task) :
    List.Perm ((l₁ ++ [x]) ++ l₂ ++ l₃) (x :: (l₁ ++ l₂ ++ l₃)) := by
  have h : (l₁ ++ [x]) ++ l₂ ++ l₃ = l₁ ++ x :: (l₂ ++ l₃) := by simp
  have hp : List.Perm (l₁ ++ x :: (l₂ ++ l₃)) (x :: (l₁ ++ (l₂ ++ l₃))) := List.perm_middle
  rw [h]
  simpa [List.append_assoc] using hp

lemma perm_app3_mid (l₁ l₂ l₃ : List Task) (x : Task) :
    List.Perm (l₁ ++ (l₂ ++ [x]) ++ l₃) (x :: (l₁ ++ l₂ ++ l₃)) := by
  have h : l₁ ++ (l₂ ++ [x]) ++ l₃ = (l₁ ++ l₂) ++ x :: l₃ := by simp
  have hp : List.Perm ((l₁ ++ l₂) ++ x :: l₃) (x :: ((l₁ ++ l₂) ++ l₃)) := List.perm_middle
  rw [h]
  simpa [List.append_assoc] using hp

lemma perm_app3_last (l₁ l₂ l₃ : List Task) (x : Task) :
    List.Perm (l₁ ++ l₂ ++ (l₃ ++ [x])) (x :: (l₁ ++ l₂ ++ l₃)) := by
  have h : l₁ ++ l₂ ++ (l₃ ++ [x]) = (l₁ ++ l₂ ++ l₃) ++ [x] := by simp
  have hp : List.Perm ((l₁ ++ l₂ ++ l₃) ++ x :: []) (x :: ((l₁ ++ l₂ ++ l₃) ++ [])) :=
    List.perm_middle
  rw [h]
  simpa using hp

lemma perm_erase3_first {t : Task} {l₁ : List Task} (l₂ l₃ : List Task) (h : t ∈ l₁) :
    List.Perm (l₁ ++ l₂ ++ l₃) (t :: (l₁.erase t ++ l₂ ++ l₃)) := by
  have h1 : List.Perm (l₁ ++ l₂ ++ l₃) ((t :: l₁.erase t) ++ l₂ ++ l₃) :=
    ((List.perm_cons_erase h).append_right _).append_right _
  simpa using h1

lemma perm_erase3_mid {t : Task} {l₂ : List Task} (l₁ l₃ : List Task) (h : t ∈ l₂) :
    List.Perm (l₁ ++ l₂ ++ l₃) (t :: (l₁ ++ l₂.erase t ++ l₃)) := by
  have h1 : List.Perm (l₁ ++ l₂ ++ l₃) (l₁ ++ (t :: l₂.erase t) ++ l₃) :=
    ((List.perm_cons_erase h).append_left _).append_right _
  have h2 : l₁ ++ (t :: l₂.erase t) ++ l₃ = l₁ ++ t :: (l₂.erase t ++ l₃) := by simp
  have h3 : List.Perm (l₁ ++ t :: (l₂.erase t ++ l₃)) (t :: (l₁ ++ (l₂.erase t ++ l₃))) :=
    List.perm_middle
  rw [h2] at h1
  have h4 := h1.trans h3
  simpa using h4

lemma perm_erase3_last {t : Task} {l₃ : List Task} (l₁ l₂ : List Task) (h : t ∈ l₃) :
    List.Perm (l₁ ++ l₂ ++ l₃) (t :: (l₁ ++ l₂ ++ l₃.erase t)) := by
  have h1 : List.Perm (l₁ ++ l₂ ++ l₃) ((l₁ ++ l₂) ++ (t :: l₃.erase t)) :=
    (List.perm_cons_erase h).append_left _
  have h3 : List.Perm ((l₁ ++ l₂) ++ t :: l₃.erase t) (t :: ((l₁ ++ l₂) ++ l₃.erase t)) :=
    List.perm_middle
  exact h1.trans h3

/-- Transfer of the claim's invariant across a move: the post-board is, up
to permutation, the pre-board with one task replaced by a same-id task. -/
lemma UniqIds_update {b b2 : Board} {t t' : Task} {R : List Task}
    (hu : UniqIds b) (ht : t ∈ b.allTasks)
    (hP2 : List.Perm b.allTasks (t :: R)) (hP1 : List.Perm b2.allTasks (t' :: R))
    (hid : t'.id = t.id) (hnext : b2.nextId = b.nextId) : UniqIds b2 := by
  obtain ⟨hnd, hbd⟩ := hu
  constructor
  · have h2 : (b.allTasks.map Task.id).Nodup ↔ (t.id :: R.map Task.id).Nodup := by
      simpa using (hP2.map Task.id).nodup_iff
    have h1 : (b2.allTasks.map Task.id).Nodup ↔ (t'.id :: R.map Task.id).Nodup := by
      simpa using (hP1.map Task.id).nodup_iff
    rw [h1, hid]
    exact h2.1 hnd
  · intro u hu'
    rw [hnext]
    rcases List.mem_cons.1 ((hP1.mem_iff).1 hu') with h | h
    · subst h
      rw [hid]
      exact hbd t ht
    · exact hbd u ((hP2.symm.mem_iff).1 (List.mem_cons_of_mem t h))

/-- A board whose columns are sublists of another's (same `_next_id`)
inherits the claim's invariant: removals preserve `UniqIds`. -/
lemma UniqIds_of_sublists {b b2 : Board} (h : UniqIds b)
    (s1 : List.Sublist b2.todo b.todo) (s2 : List.Sublist b2.inProgress b.inProgress)
    (s3 : List.Sublist b2.done b.done) (hn : b2.nextId = b.nextId) : UniqIds b2 := by
  obtain ⟨hnd, hbd⟩ := h
  have hsub : List.Sublist b2.allTasks b.allTasks := (s1.append s2).append s3
  refine ⟨hnd.sublist (hsub.map Task.id), ?_⟩
  intro u hu
  rw [hn]
  exact hbd u (hsub.subset hu)

lemma transitionTask_id (t : Task) (ns now : String) :
    (transitionTask t ns now).id = t.id := by
  simp only [transitionTask]
  split <;> rfl

lemma transitionTask_status (t : Task) (ns now : String) :
    (transitionTask t ns now).status = ns := by
  simp only [transitionTask]
  split <;> rfl

lemma mem_allTasks_of_mem_col {b : Board} {s : String} {u : Task}
    (hs : s ∈ STATUSES) (hu : u ∈ b.col s) : u ∈ b.allTasks := by
  rcases mem_STATUSES_iff.1 hs with h | h | h <;> subst h <;>
    simp only [Board.col, Board.allTasks, reduceIte] at hu ⊢ <;>
    simp_all [List.mem_append]

/-- On a task actually sitting in its (valid) status column — every task
the program's own lookups can hand to `_move_found_task` — the
exception-aware move agrees with the total model `Board.moveFoundTask`. -/
lemma moveFoundTask?_eq_some (b : Board) (t : Task) (ns label now : String)
    (h1 : t.status ∈ STATUSES) (h2 : t ∈ b.col t.status) :
    b.moveFoundTask? t ns label now = some (b.moveFoundTask t ns label now) := by
  simp only [Board.moveFoundTask?, Board.moveFoundTask]
  by_cases hns : ns ∈ STATUSES
  · by_cases hst : t.status = ns
    · rw [if_neg (by simp [hns]), if_pos hst, if_neg (by simp [hns]), if_pos hst]
    · rw [if_neg (by simp [hns]), if_neg hst, if_neg (by simp [h1]),
        if_neg (not_not_intro h2), if_neg (by simp [hns]), if_neg hst]
  · rw [if_pos (by simpa using hns), if_pos (by simpa using hns)]

/-- The exception-aware `_move_found_task` preserves the claim's invariant
for an arbitrary task: a raising execution (`KeyError` on the column
lookup, `ValueError` on `list.remove`) leaves the board unchanged, and a
successful `list.remove` certifies that the task really was in its status
column, after which the move only replaces that task by a same-id task. -/
lemma moveFoundTask?_UniqIds (b : Board) (t : Task) (ns label now : String)
    (hu : UniqIds b) :
    UniqIds (orUnchanged b (b.moveFoundTask? t ns label now)) := by
  by_cases hns : ns ∈ STATUSES
  · by_cases hst : t.status = ns
    · simp only [Board.moveFoundTask?]
      rw [if_neg (by simp [hns]), if_pos hst]
      exact hu
    · by_cases hsv : t.status ∈ STATUSES
      · by_cases hmm : t ∈ b.col t.status
        · have ht : t ∈ b.allTasks := mem_allTasks_of_mem_col hsv hmm
          have hcol : (t ∈ b.todo ∧ t.status = "todo") ∨
              (t ∈ b.inProgress ∧ t.status = "in-progress") ∨
              (t ∈ b.done ∧ t.status = "done") := by
            rcases mem_STATUSES_iff.1 hsv with h | h | h
            · refine Or.inl ⟨?_, h⟩
              rw [h] at hmm
              simpa [Board.col] using hmm
            · refine Or.inr (Or.inl ⟨?_, h⟩)
              rw [h] at hmm
              simpa [Board.col] using hmm
            · refine Or.inr (Or.inr ⟨?_, h⟩)
              rw [h] at hmm
              simpa [Board.col] using hmm
          simp only [Board.moveFoundTask?]
          rw [if_neg (by simp [hns]), if_neg hst, if_neg (by simp [hsv]),
            if_neg (not_not_intro hmm)]
          rcases mem_STATUSES_iff.1 hns with hn | hn | hn <;> subst hn <;>
            rcases hcol with ⟨hmem, hs⟩ | ⟨hmem, hs⟩ | ⟨hmem, hs⟩
          · exact absurd hs hst
          · -- in-progress → todo
            simp only [hs, orUnchanged, Board.setCol, Board.col]
            simp only [reduceIte]
            exact UniqIds_update hu ht (perm_erase3_mid _ _ hmem)
              (perm_app3_first _ _ _ _) (transitionTask_id ..) rfl
          · -- done → todo
            simp only [hs, orUnchanged, Board.setCol, Board.col]
            simp only [reduceIte]
            exact UniqIds_update hu ht (perm_erase3_last _ _ hmem)
              (perm_app3_first _ _ _ _) (transitionTask_id ..) rfl
          · -- todo → in-progress
            simp only [hs, orUnchanged, Board.setCol, Board.col]
            simp only [reduceIte]
            exact UniqIds_update hu ht (perm_erase3_first _ _ hmem)
              (perm_app3_mid _ _ _ _) (transitionTask_id ..) rfl
          · exact absurd hs hst
          · -- done → in-progress
            simp only [hs, orUnchanged, Board.setCol, Board.col]
            simp only [reduceIte]
            exact UniqIds_update hu ht (perm_erase3_last _ _ hmem)
              (perm_app3_mid _ _ _ _) (transitionTask_id ..) rfl
          · -- todo → done
            simp only [hs, orUnchanged, Board.setCol, Board.col]
            simp only [reduceIte]
            exact UniqIds_update hu ht (perm_erase3_first _ _ hmem)
              (perm_app3_last _ _ _ _) (transitionTask_id ..) rfl
          · -- in-progress → done
            simp only [hs, orUnchanged, Board.setCol, Board.col]
            simp only [reduceIte]
            exact UniqIds_update hu ht (perm_erase3_mid _ _ hmem)
              (perm_app3_last _ _ _ _) (transitionTask_id ..) rfl
          · exact absurd hs hst
        · simp only [Board.moveFoundTask?]
          rw [if_neg (by simp [hns]), if_neg hst, if_neg (by simp [hsv]), if_pos hmm]
          exact hu
      · simp only [Board.moveFoundTask?]
        rw [if_neg (by simp [hns]), if_neg hst, if_pos (by simpa using hsv)]
        exact hu
  · simp only [Board.moveFoundTask?]
    rw [if_pos (by simpa using hns)]
    exact hu

lemma add_task_UniqIds (b : Board) (task : Task) (now : String) (h : UniqIds b) :
    UniqIds (b.add_task task now) := by
  obtain ⟨hnd, hbd⟩ := h
  have key : ∀ t' : Task, t'.id = b.nextId →
      UniqIds { b with todo := b.todo ++ [t'], nextId := b.nextId + 1 } := by
    intro t' hid
    have hp : List.Perm
        (Board.allTasks { b with todo := b.todo ++ [t'], nextId := b.nextId + 1 })
        (t' :: b.allTasks) := perm_app3_first _ _ _ _
    constructor
    · refine ((hp.map Task.id).nodup_iff).2 ?_
      simp only [List.map_cons, List.nodup_cons]
      refine ⟨?_, hnd⟩
      intro hmem
      rcases List.mem_map.1 hmem with ⟨u, hu, hequ⟩
      have hb := hbd u hu
      rw [hid] at hequ
      omega
    · intro u hu
      show u.id < b.nextId + 1
      rcases List.mem_cons.1 (hp.mem_iff.1 hu) with hm | hm
      · rw [hm, hid]; omega
      · have := hbd u hm; omega
  simp only [Board.add_task]
  exact key _ (by split <;> rfl)

lemma move_task?_UniqIds (b : Board) (ttl ns now : String) (h : UniqIds b) :
    UniqIds (orUnchanged b (b.move_task? ttl ns now)) := by
  simp only [Board.move_task?]
  rcases hf : b.allTasks.find? (fun t => t.title == ttl) with _ | t
  · simp only [hf]
    exact h
  · simp only [hf]
    exact moveFoundTask?_UniqIds b t ns _ now h

lemma move_task_by_id?_UniqIds (b : Board) (tid : Int) (ns now : String) (h : UniqIds b) :
    UniqIds (orUnchanged b (b.move_task_by_id? tid ns now)) := by
  simp only [Board.move_task_by_id?]
  by_cases hv : ns ∈ STATUSES
  · rw [if_neg (by simpa using hv)]
    rcases hf : b.allTasks.find? (fun t => t.id == tid) with _ | t
    · simp only [hf]
      exact h
    · simp only [hf]
      exact moveFoundTask?_UniqIds b t ns _ now h
  · rw [if_pos (by simpa using hv)]
    exact h

lemma move_task_by_index?_UniqIds (b : Board) (cur : String) (k : Int) (ns now : String)
    (h : UniqIds b) : UniqIds (orUnchanged b (b.move_task_by_index? cur k ns now)) := by
  simp only [Board.move_task_by_index?]
  by_cases hv1 : cur ∈ STATUSES
  · rw [if_neg (by simpa using hv1)]
    by_cases hv2 : ns ∈ STATUSES
    · rw [if_neg (by simpa using hv2)]
      by_cases hidx : k - 1 < 0 ∨ ((b.col cur).length : Int) ≤ k - 1
      · rw [if_pos hidx]; exact h
      · rw [if_neg hidx]
        rcases hg : (b.col cur).get? (k - 1).toNat with _ | t
        · simp only [hg]; exact h
        · simp only [hg]
          exact moveFoundTask?_UniqIds b t ns _ now h
    · rw [if_pos (by simpa using hv2)]; exact h
  · rw [if_pos (by simpa using hv1)]; exact h

lemma remove_task_UniqIds (b : Board) (ttl : String) (h : UniqIds b) :
    UniqIds (b.remove_task ttl).2 := by
  simp only [Board.remove_task]
  split_ifs <;>
    first
      | exact h
      | exact UniqIds_of_sublists h (List.eraseP_sublist _) (List.Sublist.refl _)
          (List.Sublist.refl _) rfl
      | exact UniqIds_of_sublists h (List.Sublist.refl _) (List.eraseP_sublist _)
          (List.Sublist.refl _) rfl
      | exact UniqIds_of_sublists h (List.Sublist.refl _) (List.Sublist.refl _)
          (List.eraseP_sublist _) rfl

lemma remove_task_by_id_UniqIds (b : Board) (tid : Int) (h : UniqIds b) :
    UniqIds (b.remove_task_by_id tid).2 := by
  simp only [Board.remove_task_by_id]
  split_ifs <;>
    first
      | exact h
      | exact UniqIds_of_sublists h (List.eraseP_sublist _) (List.Sublist.refl _)
          (List.Sublist.refl _) rfl
      | exact UniqIds_of_sublists h (List.Sublist.refl _) (List.eraseP_sublist _)
          (List.Sublist.refl _) rfl
      | exact UniqIds_of_sublists h (List.Sublist.refl _) (List.Sublist.refl _)
          (List.eraseP_sublist _) rfl

lemma applyOp_UniqIds (b : Board) (op : Op) (h : UniqIds b) :
    UniqIds (applyOp b op) := by
  cases op with
  | add t now => exact add_task_UniqIds b t now h
  | mvTitle ttl ns now => exact move_task?_UniqIds b ttl ns now h
  | mvId i ns now => exact move_task_by_id?_UniqIds b i ns now h
  | mvIndex c k ns now => exact move_task_by_index?_UniqIds b c k ns now h
  | rmTitle ttl => exact remove_task_UniqIds b ttl h
  | rmId i => exact remove_task_by_id_UniqIds b i h

/-- C3: starting from any board whose task ids are pairwise unique and
whose `_next_id` exceeds every id present, every sequence of add / move
(any variant) / remove (by title or id) operations preserves the
uniqueness of the set of ids across the three columns (and keeps
`_next_id` above every id); the sequence being arbitrary, the invariant
holds after every step (every prefix).  Moves run under the faithful
exception semantics: a move whose column lookup or `list.remove` raises
mutates nothing, the uncaught exception ending the command with the board
unchanged. -/
theorem C3_unique_ids_preserved (b : Board) (ops : List Op) (h : UniqIds b) :
    ((applyOps b ops).allTasks.map Task.id).Nodup ∧ UniqIds (applyOps b ops) := by
  suffices hw : UniqIds (applyOps b ops) by exact ⟨hw.1, hw⟩
  induction ops generalizing b with
  | nil => simpa [applyOps] using h
  | cons op ops ih =>
    rw [applyOps, List.foldl_cons]
    exact ih _ (applyOp_UniqIds _ _ h)

/-- Witness for C3: a board whose single task carries a status inconsistent
with its column, so the first move raises `ValueError` (on the empty done
column) and leaves the board unchanged; an add and a remove follow.  Id
uniqueness survives the whole sequence. -/
theorem C3_witness :
    ((applyOps { todo := [⟨1, "x", "done", none, none⟩], inProgress := [], done := [],
                 nextId := 2 }
        [Op.mvTitle "x" "in-progress" "T1", Op.add ⟨0, "b", "todo", none, none⟩ "T2",
         Op.rmId 1]).allTasks.map Task.id).Nodup ∧
    UniqIds (applyOps { todo := [⟨1, "x", "done", none, none⟩], inProgress := [], done := [],
                        nextId := 2 }
        [Op.mvTitle "x" "in-progress" "T1", Op.add ⟨0, "b", "todo", none, none⟩ "T2",
         Op.rmId 1]) :=
  C3_unique_ids_preserved
    { todo := [⟨1, "x", "done", none, none⟩], inProgress := [], done := [], nextId := 2 }
    [Op.mvTitle "x" "in-progress" "T1", Op.add ⟨0, "b", "todo", none, none⟩ "T2",
     Op.rmId 1]
    (by decide)

/-! ## C4: export / load round trip -/

lemma map_status_self {l : List Task} {s : String} (h : ∀ t ∈ l, t.status = s) :
    l.map (fun t => { t with status := s }) = l := by
  induction l with
  | nil => rfl
  | cons t ts ih =>
    have ht := h t (List.mem_cons_self t ts)
    have hts := ih (fun u hu => h u (List.mem_cons_of_mem t hu))
    simp only [List.map_cons, hts]
    congr 1
    cases t
    simp_all

lemma collectCol_map_taskToRec (s : String) (l : List Task) : ∀ (nid : Int),
    collectCol s nid (l.map taskToRec) = (l.map (fun t => { t with status := s }), nid) := by
  induction l with
  | nil => intro nid; rfl
  | cons t ts ih => intro nid; simp [collectCol, taskToRec, ih]

lemma collectRecs_export (b : Board) :
    collectRecs 1 b.get_tasks =
      (b.todo.map (fun t => { t with status := "todo" }) ++
       b.inProgress.map (fun t => { t with status := "in-progress" }) ++
       b.done.map (fun t => { t with status := "done" }), 1) := by
  simp [Board.get_tasks, collectRecs, collectCol_map_taskToRec, STATUSES]

lemma distribute_append (l₁ l₂ : List Task) : ∀ (b : Board),
    distribute b (l₁ ++ l₂) = distribute (distribute b l₁) l₂ := by
  induction l₁ with
  | nil => intro b; simp [distribute]
  | cons t ts ih =>
    intro b
    rw [List.cons_append]
    simp only [distribute]
    exact ih _

lemma distribute_all_todo (l : List Task) : ∀ (b : Board), (∀ t ∈ l, t.status = "todo") →
    distribute b l = { b with todo := b.todo ++ l } := by
  induction l with
  | nil => intro b h; cases b; simp [distribute]
  | cons t ts ih =>
    intro b h
    have ht := h t (List.mem_cons_self t ts)
    simp only [distribute, ht, Board.setCol, Board.col, reduceIte]
    rw [ih _ (fun u hu => h u (List.mem_cons_of_mem t hu))]
    simp

lemma distribute_all_inProgress (l : List Task) : ∀ (b : Board),
    (∀ t ∈ l, t.status = "in-progress") →
    distribute b l = { b with inProgress := b.inProgress ++ l } := by
  induction l with
  | nil => intro b h; cases b; simp [distribute]
  | cons t ts ih =>
    intro b h
    have ht := h t (List.mem_cons_self t ts)
    simp only [distribute, ht, Board.setCol, Board.col, reduceIte]
    rw [ih _ (fun u hu => h u (List.mem_cons_of_mem t hu))]
    simp

lemma distribute_all_done (l : List Task) : ∀ (b : Board), (∀ t ∈ l, t.status = "done") →
    distribute b l = { b with done := b.done ++ l } := by
  induction l with
  | nil => intro b h; cases b; simp [distribute]
  | cons t ts ih =>
    intro b h
    have ht := h t (List.mem_cons_self t ts)
    simp only [distribute, ht, Board.setCol, Board.col, reduceIte]
    rw [ih _ (fun u hu => h u (List.mem_cons_of_mem t hu))]
    simp

lemma roundtrip_eq (b : Board)
    (h1 : ∀ t ∈ b.todo, t.status = "todo")
    (h2 : ∀ t ∈ b.inProgress, t.status = "in-progress")
    (h3 : ∀ t ∈ b.done, t.status = "done") :
    roundtrip b = { todo := b.todo, inProgress := b.inProgress, done := b.done,
                    nextId := if b.allTasks ≠ [] then maxIdList b.allTasks + 1 else 1 } := by
  simp only [roundtrip, boardOfDict, collectRecs_export, map_status_self h1,
    map_status_self h2, map_status_self h3]
  rw [distribute_append, distribute_append]
  rw [distribute_all_todo _ _ h1]
  rw [distribute_all_inProgress _ _ h2]
  rw [distribute_all_done _ _ h3]
  simp [Board.allTasks]

/-- C4 (amended): provided each task carries the status of the column
holding it (the data-model invariant), rebuilding a board from its own
export reproduces the three columns exactly — same ids, titles, statuses,
timestamps and per-column order — and `_next_id` is recomputed to one past
the maximum id present (1 for an empty board). -/
theorem C4_amended_roundtrip (b : Board)
    (h1 : ∀ t ∈ b.todo, t.status = "todo")
    (h2 : ∀ t ∈ b.inProgress, t.status = "in-progress")
    (h3 : ∀ t ∈ b.done, t.status = "done") :
    (roundtrip b).todo = b.todo ∧ (roundtrip b).inProgress = b.inProgress ∧
    (roundtrip b).done = b.done ∧
    (b.allTasks ≠ [] → (roundtrip b).nextId = maxIdList b.allTasks + 1) ∧
    (b.allTasks = [] → (roundtrip b).nextId = 1) := by
  rw [roundtrip_eq b h1 h2 h3]
  refine ⟨rfl, rfl, rfl, ?_, ?_⟩
  · intro hne; simp [hne]
  · intro he; simp [he]

/-- C4 counterexample to the claim as stated: over boards constrained only
to integer ids and string titles, a task whose status does not match its
column is re-statused to the column key by the load, so the round trip does
not reproduce an identical task. -/
theorem C4_counterexample :
    (roundtrip { todo := [⟨1, "x", "done", none, none⟩], inProgress := [], done := [],
                 nextId := 2 }).todo ≠ [⟨1, "x", "done", none, none⟩] := by
  decide

/-- The concrete coherent board used by the C4 witness. -/
def c4Board : Board :=
  { todo := [⟨1, "x", "todo", none, some "C"⟩], inProgress := [],
    done := [⟨7, "y", "done", some "D", none⟩], nextId := 99 }

/-- Witness for C4 (amended) on a concrete two-task coherent board. -/
theorem C4_witness :
    (roundtrip c4Board).todo = c4Board.todo ∧
    (roundtrip c4Board).inProgress = c4Board.inProgress ∧
    (roundtrip c4Board).done = c4Board.done ∧
    (c4Board.allTasks ≠ [] → (roundtrip c4Board).nextId = maxIdList c4Board.allTasks + 1) ∧
    (c4Board.allTasks = [] → (roundtrip c4Board).nextId = 1) :=
  C4_amended_roundtrip c4Board (by decide) (by decide) (by decide)

/-! ## C5: renumber_sequential is idempotent -/

lemma insertTagged_perm (x : Nat × Task) (l : List (Nat × Task)) :
    List.Perm (insertTagged x l) (x :: l) := by
  induction l with
  | nil => exact List.Perm.refl _
  | cons y ys ih =>
    simp only [insertTagged]
    split_ifs
    · exact List.Perm.refl _
    · exact (ih.cons y).trans (List.Perm.swap x y ys)

lemma isortTagged_perm (l : List (Nat × Task)) :
    List.Perm (isortTagged l) l := by
  induction l with
  | nil => exact List.Perm.refl _
  | cons x xs ih => exact (insertTagged_perm x (isortTagged xs)).trans (ih.cons x)

lemma keyLe_total (a b : String × Int) : keyLe a b = true ∨ keyLe b a = true := by
  simp only [keyLe, Bool.or_eq_true, Bool.and_eq_true, decide_eq_true_iff]
  rcases lt_trichotomy a.1 b.1 with h | h | h
  · exact Or.inl (Or.inl h)
  · rcases le_total a.2 b.2 with h2 | h2
    · exact Or.inl (Or.inr ⟨h, h2⟩)
    · exact Or.inr (Or.inr ⟨h.symm, h2⟩)
  · exact Or.inr (Or.inl h)

lemma keyLe_trans {a b c : String × Int}
    (h1 : keyLe a b = true) (h2 : keyLe b c = true) : keyLe a c = true := by
  simp only [keyLe, Bool.or_eq_true, Bool.and_eq_true, decide_eq_true_iff] at *
  rcases h1 with h1 | ⟨h1, h1'⟩ <;> rcases h2 with h2 | ⟨h2, h2'⟩
  · exact Or.inl (h1.trans h2)
  · exact Or.inl (lt_of_lt_of_eq h1 h2)
  · exact Or.inl (lt_of_eq_of_lt h1 h2)
  · exact Or.inr ⟨h1.trans h2, h1'.trans h2'⟩

/-- The key order along a tagged list: what `isortTagged` guarantees. -/
def KSorted (l : List (Nat × Task)) : Prop :=
  l.Pairwise (fun x y => keyLe (renumKey x.2) (renumKey y.2) = true)

lemma insertTagged_sorted {l : List (Nat × Task)} (x : Nat × Task) (h : KSorted l) :
    KSorted (insertTagged x l) := by
  induction l with
  | nil => simp [KSorted, insertTagged]
  | cons y ys ih =>
    simp only [insertTagged]
    split_ifs with hxy
    · refine List.Pairwise.cons ?_ h
      intro z hz
      rcases List.mem_cons.1 hz with hz | hz
      · rw [hz]; exact hxy
      · exact keyLe_trans hxy ((List.pairwise_cons.1 h).1 z hz)
    · have hyx : keyLe (renumKey y.2) (renumKey x.2) = true := by
        rcases keyLe_total (renumKey x.2) (renumKey y.2) with h' | h'
        · exact absurd h' hxy
        · exact h'
      obtain ⟨hy, hys⟩ := List.pairwise_cons.1 h
      refine List.Pairwise.cons ?_ (ih hys)
      intro z hz
      rcases List.mem_cons.1 ((insertTagged_perm x ys).mem_iff.1 hz) with hz | hz
      · rw [hz]; exact hyx
      · exact hy z hz

lemma isortTagged_sorted (l : List (Nat × Task)) : KSorted (isortTagged l) := by
  induction l with
  | nil => simp [KSorted, isortTagged]
  | cons x xs ih => exact insertTagged_sorted x ih

lemma mapWithIds_append (f : Nat → Int) (l₁ l₂ : List Task) : ∀ (i : Nat),
    mapWithIds f i (l₁ ++ l₂) =
      mapWithIds f i l₁ ++ mapWithIds f (i + l₁.length) l₂ := by
  induction l₁ with
  | nil => intro i; simp [mapWithIds]
  | cons t ts ih =>
    intro i
    simp only [List.cons_append, List.append_eq, mapWithIds, List.length_cons, ih]
    have harg : i + 1 + ts.length = i + (ts.length + 1) := by omega
    rw [harg]

lemma mapWithIds_length (f : Nat → Int) : ∀ (l : List Task) (i : Nat),
    (mapWithIds f i l).length = l.length := by
  intro l
  induction l with
  | nil => intro i; rfl
  | cons t ts ih => intro i; simp [mapWithIds, ih]

lemma mapWithIds_mapWithIds (f g : Nat → Int) : ∀ (l : List Task) (i : Nat),
    mapWithIds f i (mapWithIds g i l) = mapWithIds f i l := by
  intro l
  induction l with
  | nil => intro i; rfl
  | cons t ts ih => intro i; simp [mapWithIds, ih]

lemma enumFrom_mapWithIds (f : Nat → Int) : ∀ (l : List Task) (i : Nat),
    (mapWithIds f i l).enumFrom i =
      (l.enumFrom i).map (fun p => (p.1, { p.2 with id := f p.1 })) := by
  intro l
  induction l with
  | nil => intro i; rfl
  | cons t ts ih => intro i; simp [mapWithIds, List.enumFrom, ih]

lemma pairwise_fst_lt_enumFrom {α : Type} : ∀ (l : List α) (i : Nat),
    (l.enumFrom i).Pairwise (fun p q => p.1 < q.1) := by
  intro l
  induction l with
  | nil => intro i; simp
  | cons x xs ih =>
    intro i
    refine List.Pairwise.cons ?_ (ih (i + 1))
    intro q hq
    rcases q with ⟨j, y⟩
    exact Nat.lt_of_succ_le (List.mem_enumFrom hq).1

/-- Strict lexicographic order on the sort keys. -/
def keyLt (a b : String × Int) : Prop :=
  a.1 < b.1 ∨ (a.1 = b.1 ∧ a.2 < b.2)

lemma keyLt_asymm {a b : String × Int} (h1 : keyLt a b) (h2 : keyLt b a) : False := by
  rcases h1 with h1 | ⟨h1, h1'⟩ <;> rcases h2 with h2 | ⟨h2, h2'⟩
  · exact absurd h2 (not_lt_of_lt h1)
  · exact absurd h1 (by rw [h2]; exact lt_irrefl _)
  · exact absurd h2 (by rw [h1]; exact lt_irrefl _)
  · exact absurd h2' (not_lt_of_lt h1')

lemma keyLe_fst_le {a b : String × Int} (h : keyLe a b = true) : a.1 ≤ b.1 := by
  simp only [keyLe, Bool.or_eq_true, Bool.and_eq_true, decide_eq_true_iff] at h
  rcases h with h | ⟨h, _⟩
  · exact le_of_lt h
  · exact le_of_eq h

lemma keyLt_of_keyLe_of_snd_lt {a b : String × Int}
    (h : keyLe a b = true) (h2 : a.2 < b.2) : keyLt a b := by
  rcases lt_or_eq_of_le (keyLe_fst_le h) with h' | h'
  · exact Or.inl h'
  · exact Or.inr ⟨h', h2⟩

lemma keyLt_of_keyLe_of_ne {a b : String × Int}
    (h : keyLe a b = true) (hne : a.2 ≠ b.2) : keyLt a b := by
  simp only [keyLe, Bool.or_eq_true, Bool.and_eq_true, decide_eq_true_iff] at h
  rcases h with h | ⟨h, h2⟩
  · exact Or.inl h
  · exact Or.inr ⟨h, lt_of_le_of_ne h2 hne⟩

/-- The id order produced by one renumber pass: the tags of the stably
sorted tagged task list. -/
def renumOrd (b : Board) : List Nat :=
  (isortTagged b.allTasks.enum).map Prod.fst

/-- The id assigned to the task at global position `j` by one renumber
pass. -/
def renumNewId (b : Board) (j : Nat) : Int :=
  (List.indexOf j (renumOrd b) : Int) + 1

/-- The per-position id update of one renumber pass. -/
def renumPhi (b : Board) : (Nat × Task) → (Nat × Task) :=
  fun p => (p.1, { p.2 with id := renumNewId b p.1 })

lemma renumber_eq (b : Board) :
    b.renumber_sequential =
      { todo := mapWithIds (renumNewId b) 0 b.todo,
        inProgress := mapWithIds (renumNewId b) b.todo.length b.inProgress,
        done := mapWithIds (renumNewId b) (b.todo.length + b.inProgress.length) b.done,
        nextId := (b.allTasks.length : Int) + 1 } := rfl

lemma renumOrd_perm (b : Board) :
    List.Perm (renumOrd b) (List.range b.allTasks.length) := by
  have h := (isortTagged_perm b.allTasks.enum).map Prod.fst
  rw [List.enum_map_fst] at h
  exact h

lemma renumOrd_nodup (b : Board) : (renumOrd b).Nodup :=
  (renumOrd_perm b).symm.nodup (List.nodup_range _)

lemma mem_renumOrd (b : Board) {j : Nat} :
    j ∈ renumOrd b ↔ j < b.allTasks.length := by
  rw [(renumOrd_perm b).mem_iff, List.mem_range]

lemma renumOrd_length (b : Board) : (renumOrd b).length = b.allTasks.length := by
  rw [(renumOrd_perm b).length_eq, List.length_range]

lemma renumNewId_at_pos (b : Board) (p : Nat)
    (hp : p < (isortTagged b.allTasks.enum).length) :
    renumNewId b (isortTagged b.allTasks.enum)[p].1 = (p : Int) + 1 := by
  have hlen : (renumOrd b).length = (isortTagged b.allTasks.enum).length :=
    List.length_map _ _
  have hp' : p < (renumOrd b).length := by omega
  have hgl : (renumOrd b)[p] = (isortTagged b.allTasks.enum)[p].1 :=
    List.getElem_map _
  unfold renumNewId
  rw [← hgl, List.indexOf_getElem (renumOrd_nodup b) p hp']

lemma renumNewId_inj (b : Board) {j j' : Nat}
    (hj : j < b.allTasks.length) (hj' : j' < b.allTasks.length)
    (h : renumNewId b j = renumNewId b j') : j = j' := by
  unfold renumNewId at h
  have hidx : List.indexOf j (renumOrd b) = List.indexOf j' (renumOrd b) := by omega
  have hj1 : List.indexOf j (renumOrd b) < (renumOrd b).length :=
    List.indexOf_lt_length.2 ((mem_renumOrd b).2 hj)
  have hj2 : List.indexOf j' (renumOrd b) < (renumOrd b).length :=
    List.indexOf_lt_length.2 ((mem_renumOrd b).2 hj')
  have e1 := List.getElem_indexOf hj1
  have e2 := List.getElem_indexOf hj2
  rw [← e1, ← e2]
  simp only [hidx]

lemma allTasks_renumber (b : Board) :
    (b.renumber_sequential).allTasks = mapWithIds (renumNewId b) 0 b.allTasks := by
  rw [renumber_eq]
  simp only [Board.allTasks, mapWithIds_append, List.length_append, Nat.zero_add]

lemma enum_allTasks_renumber (b : Board) :
    (b.renumber_sequential).allTasks.enum = b.allTasks.enum.map (renumPhi b) := by
  rw [allTasks_renumber]
  have h := enumFrom_mapWithIds (renumNewId b) b.allTasks 0
  simpa [List.enum, renumPhi] using h

lemma sorted_mapped (b : Board) :
    ((isortTagged b.allTasks.enum).map (renumPhi b)).Pairwise
      (fun x y => keyLt (renumKey x.2) (renumKey y.2)) := by
  rw [List.pairwise_iff_getElem]
  intro i j hi hj hij
  have hi' : i < (isortTagged b.allTasks.enum).length := by
    simpa using hi
  have hj' : j < (isortTagged b.allTasks.enum).length := by
    simpa using hj
  have hS := isortTagged_sorted b.allTasks.enum
  have hle := List.pairwise_iff_getElem.1 hS i j hi' hj' hij
  rw [List.getElem_map, List.getElem_map]
  have hkey : ∀ p : Nat × Task,
      renumKey ((renumPhi b) p).2 = ((p.2.created_at.getD ""), renumNewId b p.1) := by
    intro p; rfl
  rw [hkey, hkey]
  have hfst : ((isortTagged b.allTasks.enum)[i].2.created_at.getD "") ≤
      ((isortTagged b.allTasks.enum)[j].2.created_at.getD "") :=
    keyLe_fst_le hle
  have hids : renumNewId b (isortTagged b.allTasks.enum)[i].1 <
      renumNewId b (isortTagged b.allTasks.enum)[j].1 := by
    rw [renumNewId_at_pos b i hi', renumNewId_at_pos b j hj']
    omega
  rcases lt_or_eq_of_le hfst with h | h
  · exact Or.inl h
  · exact Or.inr ⟨h, hids⟩

lemma pairwise_ne_key (b : Board) :
    (b.allTasks.enum.map (renumPhi b)).Pairwise
      (fun x y => (renumKey x.2).2 ≠ (renumKey y.2).2) := by
  rw [List.pairwise_iff_getElem]
  intro i j hi hj hij
  have hi' : i < b.allTasks.length := by simpa using hi
  have hj' : j < b.allTasks.length := by simpa using hj
  have hie : i < b.allTasks.enum.length := by simpa using hi'
  have hje : j < b.allTasks.enum.length := by simpa using hj'
  have hgi : b.allTasks.enum[i] = (i, b.allTasks[i]) := by
    simp
  have hgj : b.allTasks.enum[j] = (j, b.allTasks[j]) := by
    simp
  rw [List.getElem_map, List.getElem_map, hgi, hgj]
  intro hEq
  have : renumNewId b i = renumNewId b j := hEq
  exact absurd (renumNewId_inj b hi' hj' this) (Nat.ne_of_lt hij)

lemma isort_second (b : Board) :
    isortTagged (b.renumber_sequential).allTasks.enum =
      (isortTagged b.allTasks.enum).map (renumPhi b) := by
  rw [enum_allTasks_renumber]
  have hperm : List.Perm (isortTagged (b.allTasks.enum.map (renumPhi b)))
      ((isortTagged b.allTasks.enum).map (renumPhi b)) :=
    (isortTagged_perm _).trans ((isortTagged_perm b.allTasks.enum).map (renumPhi b)).symm
  have hT := sorted_mapped b
  have hA1 : KSorted (isortTagged (b.allTasks.enum.map (renumPhi b))) :=
    isortTagged_sorted _
  have hNeSymm : ∀ {x y : Nat × Task}, (renumKey x.2).2 ≠ (renumKey y.2).2 →
      (renumKey y.2).2 ≠ (renumKey x.2).2 := fun h => h.symm
  have hNeA : (isortTagged (b.allTasks.enum.map (renumPhi b))).Pairwise
      (fun x y => (renumKey x.2).2 ≠ (renumKey y.2).2) :=
    ((isortTagged_perm (b.allTasks.enum.map (renumPhi b))).pairwise_iff hNeSymm).2
      (pairwise_ne_key b)
  have hA : (isortTagged (b.allTasks.enum.map (renumPhi b))).Pairwise
      (fun x y => keyLt (renumKey x.2) (renumKey y.2)) :=
    (hA1.and hNeA).imp (fun h => keyLt_of_keyLe_of_ne h.1 h.2)
  haveI : IsAntisymm (Nat × Task) (fun x y => keyLt (renumKey x.2) (renumKey y.2)) :=
    ⟨fun a b h1 h2 => (keyLt_asymm h1 h2).elim⟩
  exact List.eq_of_perm_of_sorted hperm hA hT

/-- C5: `renumber_sequential` is idempotent: a second pass with no
intervening mutation changes no task's id (the whole board, `_next_id`
included, is unchanged by the second pass). -/
theorem C5_renumber_sequential_idempotent (b : Board) :
    b.renumber_sequential.renumber_sequential = b.renumber_sequential := by
  have hord2 : renumOrd b.renumber_sequential = renumOrd b := by
    unfold renumOrd
    rw [isort_second, List.map_map]
    rfl
  have hnid2 : renumNewId b.renumber_sequential = renumNewId b := by
    funext j
    unfold renumNewId
    rw [hord2]
  rw [renumber_eq b.renumber_sequential, hnid2, renumber_eq b]
  simp only [Board.allTasks, List.length_append, mapWithIds_length, mapWithIds_mapWithIds]

/-! ## C1: wrapped line lengths -/

/-- What the word loop guarantees for one raw (undecorated, unprefixed)
line: within the limit, or a single over-long word of the title. -/
def RawOk (words : List String) (limit : Int) (s : String) : Prop :=
  (s.length : Int) ≤ limit ∨ (s ∈ words ∧ limit < (s.length : Int))

/-- What every produced display line satisfies: within the id-prefix budget
`pv.length + limit`, or a prefixed/indented over-long single word, or a
prefixed/indented done-suffix line, or the `<empty>` fallback. -/
def OutOk (seg : Segments) (L : Int) (line : String) : Prop :=
  (line.length : Int) ≤ (seg.pv.length : Int) + L ∨
  (∃ word ∈ pySplit seg.title_text, L < (word.length : Int) ∧
    (line = seg.pv ++ word ∨ line = indentOf seg.pv.length ++ word)) ∨
  (line = seg.pv ++ seg.done_suffix ∨ line = indentOf seg.pv.length ++ seg.done_suffix) ∨
  line = seg.pv ++ "<empty>"

lemma task_segments_pc_eq_pv (t : Task) :
    (task_segments t).pc = (task_segments t).pv := by
  simp only [task_segments]
  split <;> simp only [color] <;> (rw [String.append_assoc]; congr 1)

lemma task_segments_colored (t : Task) :
    (task_segments t).done_suffix_colored = (task_segments t).done_suffix := by
  simp only [task_segments]
  split <;> rfl

lemma indentOf_length (n : Nat) : (indentOf n).length = n := by
  show (List.replicate n ' ').length = n
  simp

lemma pyEndsWith_take_append {s t : String} (h : pyEndsWith s t = true) :
    strTake s (s.length - t.length) ++ t = s := by
  have hs : t.data <:+ s.data := of_decide_eq_true h
  obtain ⟨pre, hpre⟩ := hs
  have hlen : s.length - t.length = pre.length := by
    show s.data.length - t.data.length = pre.length
    have hl : s.data.length = pre.length + t.data.length := by
      rw [← hpre, List.length_append]
    omega
  apply String.ext
  rw [String.data_append]
  show s.data.take (s.length - t.length) ++ t.data = s.data
  rw [hlen, ← hpre, List.take_left]

lemma outOk_head_raw (seg : Segments) (L : Int) {head raw : String}
    (hlen : head.length = seg.pv.length)
    (hcase : head = seg.pv ∨ head = indentOf seg.pv.length)
    (hr : RawOk (pySplit seg.title_text) L raw) :
    OutOk seg L (head ++ raw) := by
  rcases hr with hr | ⟨hmem, hlong⟩
  · left
    rw [String.length_append, hlen]
    push_cast
    omega
  · right; left
    refine ⟨raw, hmem, hlong, ?_⟩
    rcases hcase with h | h
    · exact Or.inl (by rw [h])
    · exact Or.inr (by rw [h])

lemma assembleLine_ok (seg : Segments) (L : Int) (q : Nat × String)
    (hL1 : 1 ≤ L)
    (hpc : seg.pc = seg.pv)
    (hcolored : seg.done_suffix_colored = seg.done_suffix)
    (hraw : RawOk (pySplit seg.title_text) L q.2 ∨ q.2 = pyStrip seg.done_suffix) :
    OutOk seg L (assembleLine seg seg.pv.length q) := by
  obtain ⟨idx, raw⟩ := q
  simp only [assembleLine]
  set head := if idx = 0 then seg.pc else indentOf seg.pv.length with hhd
  have hheadlen : head.length = seg.pv.length := by
    rw [hhd]; split
    · rw [hpc]
    · exact indentOf_length _
  have hheadcase : head = seg.pv ∨ head = indentOf seg.pv.length := by
    rw [hhd]; split
    · exact Or.inl hpc
    · exact Or.inr rfl
  split_ifs with h1 h2
  · obtain ⟨hne, hew, hnst⟩ := h1
    have hrec : strTake raw (raw.length - seg.done_suffix.length) ++ seg.done_suffix =
        raw := pyEndsWith_take_append hew
    rw [hcolored]
    have hline : head ++ color (strTake raw (raw.length - seg.done_suffix.length)) ++
        seg.done_suffix = head ++ raw := by
      rw [color, String.append_assoc, hrec]
    rw [hline]
    rcases hraw with hr | hr
    · exact outOk_head_raw seg L hheadlen hheadcase hr
    · exact absurd hr hnst
  · rw [hcolored]
    rcases hheadcase with h | h <;> rw [h]
    · exact Or.inr (Or.inr (Or.inl (Or.inl rfl)))
    · exact Or.inr (Or.inr (Or.inl (Or.inr rfl)))
  · rcases hraw with hr | hr
    · rw [color]
      exact outOk_head_raw seg L hheadlen hheadcase hr
    · by_cases hne : seg.done_suffix = ""
      · rw [color]
        left
        have hr' : raw = pyStrip seg.done_suffix := hr
        have hraw0 : raw = "" := by rw [hr', hne]; rfl
        rw [hraw0, String.length_append, hheadlen]
        show (seg.pv.length : Int) + ("" : String).length ≤ (seg.pv.length : Int) + L
        have : (("" : String).length : Int) = 0 := rfl
        omega
      · exact absurd ⟨hne, hr⟩ h2

lemma wrapLoop_ok (limit : Int) (words0 : List String) :
    ∀ (ws acc : List String) (current : String) (first : Bool),
      (∀ l ∈ acc, RawOk words0 limit l) →
      (current = "" ∨ RawOk words0 limit current) →
      (∀ w ∈ ws, w ∈ words0) →
      (∀ l ∈ (wrapLoop limit limit ws acc current first).1, RawOk words0 limit l) ∧
      ((wrapLoop limit limit ws acc current first).2 = "" ∨
        RawOk words0 limit (wrapLoop limit limit ws acc current first).2) := by
  intro ws
  induction ws with
  | nil =>
    intro acc current first hacc hcur hsub
    exact ⟨hacc, hcur⟩
  | cons w ws ih =>
    intro acc current first hacc hcur hsub
    have hsub' : ∀ x ∈ ws, x ∈ words0 := fun x hx => hsub x (List.mem_cons_of_mem w hx)
    have hw : w ∈ words0 := hsub w (List.mem_cons_self w ws)
    simp only [wrapLoop, ite_self]
    by_cases hcand : (((if current = "" then w else current ++ " " ++ w).length : Int) ≤ limit)
    · rw [if_pos hcand]
      exact ih _ _ _ hacc (Or.inr (Or.inl hcand)) hsub'
    · rw [if_neg hcand]
      by_cases hcurE : current ≠ ""
      · rw [if_pos hcurE]
        refine ih _ _ _ ?_ ?_ hsub'
        · intro l hl
          rcases List.mem_append.1 hl with h | h
          · exact hacc l h
          · rw [List.mem_singleton.1 h]
            exact hcur.resolve_left hcurE
        · rcases le_or_lt (w.length : Int) limit with h | h
          · exact Or.inr (Or.inl h)
          · exact Or.inr (Or.inr ⟨hw, h⟩)
      · rw [if_neg hcurE]
        have hcur0 : current = "" := by simpa using hcurE
        rw [hcur0] at hcand
        simp only [reduceIte, if_pos] at hcand
        exact ih _ _ _ hacc (Or.inr (Or.inr ⟨hw, by omega⟩)) hsub'

/-- C1 (amended): for every task and column width `w ≥ 1`, every display
line produced by `_wrap_task` has undecorated length at most
`pv.length + max 1 (w - pv.length)` — which equals `w` whenever
`w > pv.length`, the id prefix `pv` being reserved on every line — except a
line holding a single word whose own length exceeds the per-line limit
`max 1 (w - pv.length)`, a line holding the done-suffix annotation, and the
`<empty>` fallback line. -/
theorem C1_amended_wrap_within_budget (task : Task) (col_width : Int)
    (hw : 1 ≤ col_width) :
    ∀ line ∈ (Board.wrap_task task col_width).getD [],
      OutOk (task_segments task)
        (max 1 (col_width - ((task_segments task).pv.length : Int))) line := by
  intro line hline
  rcases hwt : Board.wrap_task task col_width with _ | lines
  · rw [hwt] at hline
    simp at hline
  · rw [hwt] at hline
    simp only [Option.getD_some] at hline
    simp only [Board.wrap_task] at hwt
    set seg := task_segments task with hsegdef
    set L : Int := max 1 (col_width - (seg.pv.length : Int)) with hLdef
    have hL1 : 1 ≤ L := le_max_left _ _
    have hpc : seg.pc = seg.pv := task_segments_pc_eq_pv task
    have hcolored : seg.done_suffix_colored = seg.done_suffix := task_segments_colored task
    set words := pySplit seg.title_text with hwordsdef
    set r := wrapLoop L L words [] "" true with hrdef
    set flushed := if r.2 ≠ "" then r.1 ++ [r.2] else r.1 with hfldef
    have hfl : ∀ l ∈ flushed, RawOk words L l := by
      have hwl := wrapLoop_ok L words words [] "" true (by simp) (Or.inl rfl)
        (fun w hw => hw)
      rw [hfldef]
      split_ifs with hc
      · intro l hl
        rcases List.mem_append.1 hl with h | h
        · exact hwl.1 l h
        · rw [List.mem_singleton.1 h]
          exact hwl.2.resolve_left hc
      · exact hwl.1
    simp only [ite_self] at hwt
    have main : ∀ lines_raw : List String,
        (∀ l ∈ lines_raw, RawOk words L l ∨ l = pyStrip seg.done_suffix) →
        line ∈ (if lines_raw.enum.map (assembleLine seg seg.pv.length) ≠ []
                then lines_raw.enum.map (assembleLine seg seg.pv.length)
                else [seg.pc ++ color "<empty>"]) →
        OutOk seg L line := by
      intro lines_raw hinv hmem
      split_ifs at hmem with hne
      · obtain ⟨q, hq, hfq⟩ := List.mem_map.1 hmem
        rw [← hfq]
        obtain ⟨i, raw⟩ := q
        have hidx := List.mem_enum hq
        have hrawmem : raw ∈ lines_raw := by
          rw [hidx.2]
          exact List.getElem_mem hidx.1
        exact assembleLine_ok seg L (i, raw) hL1 hpc hcolored (hinv raw hrawmem)
      · rw [List.mem_singleton.1 hmem, hpc, color]
        exact Or.inr (Or.inr (Or.inr rfl))
    split_ifs at hwt with h1 h2 h3
    · simp at hwt
    · simp only [Option.map_some', Option.some.injEq] at hwt
      rw [← hwt] at hline
      refine main _ ?_ hline
      intro l hl
      rcases List.mem_append.1 hl with h | h
      · exact Or.inl (hfl l ((List.dropLast_sublist flushed).subset h))
      · rw [List.mem_singleton.1 h]
        left
        left
        rw [String.length_append]
        push_cast
        push_cast at h2
        omega
    · simp only [Option.map_some', Option.some.injEq] at hwt
      rw [← hwt] at hline
      refine main _ ?_ hline
      intro l hl
      rcases List.mem_append.1 hl with h | h
      · exact Or.inl (hfl l h)
      · exact Or.inr (List.mem_singleton.1 h)
    · simp only [Option.map_some', Option.some.injEq] at hwt
      rw [← hwt] at hline
      exact main _ (fun l hl => Or.inl (hfl l hl)) hline

/-- The C1 claim as stated, specialized to one task and width: every
produced (undecorated) display line has length at most the column width,
except a line holding a single word of the title whose own length exceeds
the column width. -/
def C1Claim (task : Task) (col_width : Int) : Prop :=
  ∀ line ∈ (Board.wrap_task task col_width).getD [],
    (line.length : Int) ≤ col_width ∨
    ∃ word ∈ pySplit (task_segments task).title_text,
      col_width < (word.length : Int) ∧
      (line = (task_segments task).pv ++ word ∨
       line = indentOf (task_segments task).pv.length ++ word)

instance (task : Task) (col_width : Int) : Decidable (C1Claim task col_width) := by
  unfold C1Claim
  infer_instance

/-- C1 counterexample to the claim as stated: the constant id prefix
(`"1. "`, 3 columns) is part of every display line but the claim's bound
ignores it.  For the task titled `"ab cd"` at width 4 the wrapper emits
`"1. ab"` and `"   cd"` (5 columns each, limit `max 1 (4-3) = 1`), yet no
word of the title is wider than the column. -/
theorem C1_counterexample : ¬ C1Claim ⟨1, "ab cd", "todo", none, none⟩ 4 := by
  decide

/-- Witness for C1 (amended) at width 20 on a one-line task. -/
theorem C1_witness :
    1 ≤ (20 : Int) ∧
    ∀ line ∈ (Board.wrap_task ⟨1, "hello", "todo", none, none⟩ 20).getD [],
      OutOk (task_segments ⟨1, "hello", "todo", none, none⟩)
        (max 1 (20 - ((task_segments ⟨1, "hello", "todo", none, none⟩).pv.length : Int)))
        line :=
  ⟨by decide, C1_amended_wrap_within_budget ⟨1, "hello", "todo", none, none⟩ 20 (by decide)⟩

end Kanban
